import Mathlib

/-!
Verification development for the slide-transplant engine of a presentation
merge tool (`app/ppt_merge.py`).  The Python source is shallowly embedded:

* XML elements (lxml subtrees) become the inductive `Xml` (a tag, an ordered
  attribute list, an ordered child list); `element.iter()` is pre-order
  traversal including the root, which is `allNodes`.
* OPC parts and relationship tables (the python-pptx substrate, described in
  the spec only through its interface) become `SrcPart` / `DestPart`; the
  operations `rels.get_or_add`, `rels.get_or_add_ext_rel` and
  `part.get_or_add_image_part` are modelled after python-pptx's documented
  matching behaviour (match on relationship type + target, external flag).
* Python exceptions become `Except Unit`; substrate calls that can raise are
  given explicit success flags on the relationship record (`Blob.ok` for
  image decoding, `rawCopyOk` for the raw relationship-copy call).
* Machine arithmetic: EMU coordinates are `Int`; `float` scale factors are
  modelled as exact rationals with Python's `int()` truncation (`pyTrunc`).

Namespace braces inside string literals are written with `\x7b`/`\x7d`.
-/

/-- Lift a predicate over the success value of an `Except` computation;
errors (propagated Python exceptions) satisfy it vacuously. -/
def OnOk (P : α → Prop) : Except Unit α → Prop
  | .ok a => P a
  | .error _ => True

/-- Decidable equality for `Except`, so concrete runs can be checked by
`decide`. -/
instance instDecEqExcept {ε α : Type} [DecidableEq ε] [DecidableEq α] :
    DecidableEq (Except ε α)
  | .ok a, .ok b => if h : a = b then isTrue (by rw [h]) else isFalse (by simp [h])
  | .ok _, .error _ => isFalse (by simp)
  | .error _, .ok _ => isFalse (by simp)
  | .error a, .error b =>
      if h : a = b then isTrue (by rw [h]) else isFalse (by simp [h])

/-- `REL_NS` from `ppt_merge.py`: the Clark-notation prefix of every
relationship-reference attribute name. -/
def relNsStr : String :=
  "\x7bhttp://schemas.openxmlformats.org/officeDocument/2006/relationships\x7d"

/-- DrawingML main namespace in Clark notation. -/
def aNsStr : String :=
  "\x7bhttp://schemas.openxmlformats.org/drawingml/2006/main\x7d"

/-- PresentationML main namespace in Clark notation. -/
def pNsStr : String :=
  "\x7bhttp://schemas.openxmlformats.org/presentationml/2006/main\x7d"

/-- Tag of `p:spPr` (what `shape_el.find(".//p:spPr", shape_el.nsmap)` looks for). -/
def pSpPrTag : String := pNsStr ++ "spPr"

/-- Tag of `a:xfrm` (what `sp_pr.find(".//a:xfrm", ...)` looks for). -/
def aXfrmTag : String := aNsStr ++ "xfrm"

/-- Tag created by `OxmlElement("a:solidFill")`. -/
def aSolidFillTag : String := aNsStr ++ "solidFill"

/-- Tag created by `OxmlElement("a:schemeClr")`. -/
def aSchemeClrTag : String := aNsStr ++ "schemeClr"

/-- Python `s.endswith(suf)`, computed on the character lists. -/
def strEndsWith (s suf : String) : Bool := suf.toList.isSuffixOf s.toList

/-- `attr_name.startswith(REL_NS)` from `_remap_relationship_ids`, computed
on the character lists. -/
def relNs (n : String) : Bool := relNsStr.toList.isPrefixOf n.toList

/-- `rel.reltype.endswith("/tags")`. -/
def isTagsType (t : String) : Bool := strEndsWith t "/tags"

/-- `rel.reltype.endswith("/image")`. -/
def isImageType (t : String) : Bool := strEndsWith t "/image"

/-- `node.tag.endswith("}ph")`. -/
def isPhTag (t : String) : Bool := strEndsWith t "\x7dph"

/-- `node.tag.endswith("}rPr")`. -/
def isRPrTag (t : String) : Bool := strEndsWith t "\x7drPr"

/-- `node.tag.endswith("}endParaRPr")`. -/
def isEndParaRPrTag (t : String) : Bool := strEndsWith t "\x7dendParaRPr"

/-- `node.tag.endswith("}solidFill")`. -/
def isSolidFillTag (t : String) : Bool := strEndsWith t "\x7dsolidFill"

/-- Run/end-paragraph style node test used by `_apply_fallback_title_style`. -/
def isRunStyleTag (t : String) : Bool := isRPrTag t || isEndParaRPrTag t

/-- Python `s or dflt` for an optional string: `None` and the empty string
both fall back to the default (used for `fallback_size or "2400"` and
`(c_idx or "0")`). -/
def pyOr (o : Option String) (dflt : String) : String :=
  match o with
  | none => dflt
  | some s => if s = "" then dflt else s

mutual
/-- An lxml element: tag (Clark notation), ordered attribute list, ordered
child elements.  Text content is irrelevant to every claim and omitted. -/
inductive Xml where
  | elem (tag : String) (attrs : List (String × String)) (children : XmlList) : Xml
/-- Ordered list of child elements. -/
inductive XmlList where
  | nil : XmlList
  | cons (hd : Xml) (tl : XmlList) : XmlList
end

/-- Tag of an element. -/
def Xml.tag : Xml → String
  | .elem t _ _ => t

/-- Attribute list of an element. -/
def Xml.attrs : Xml → List (String × String)
  | .elem _ a _ => a

/-- Children of an element. -/
def Xml.children : Xml → XmlList
  | .elem _ _ c => c

/-- View an `XmlList` as a `List Xml`. -/
def XmlList.toList : XmlList → List Xml
  | .nil => []
  | .cons c cs => c :: cs.toList

/-- `node.get(name)`: first (unique) attribute with that name. -/
def getAttr (as : List (String × String)) (n : String) : Option String :=
  (as.find? (fun nv => nv.1 == n)).map (fun nv => nv.2)

/-- `node.get(name)` on an element. -/
def Xml.get (x : Xml) (n : String) : Option String := getAttr x.attrs n

mutual
/-- `element.iter()`: pre-order traversal, the element itself first. -/
def allNodes : Xml → List Xml
  | .elem t a cs => .elem t a cs :: allNodesL cs
/-- Pre-order traversal of a child list. -/
def allNodesL : XmlList → List Xml
  | .nil => []
  | .cons c cs => allNodes c ++ allNodesL cs
end

/-- The `(node.get("type"), node.get("idx"))` pairs of every `}ph`-tagged
node in `element.iter()` order (pre-order snapshot, as taken by
`list(shape_el.iter())`). -/
def phPre (x : Xml) : List (Option String × Option String) :=
  (allNodes x).filterMap fun n =>
    if isPhTag n.tag then some (n.get "type", n.get "idx") else none

/-- `_get_placeholder_info`: `(type, idx)` of the first `}ph` node in
`shape_el.iter()`, else `(None, None)`. -/
def getPlaceholderInfo (x : Xml) : Option String × Option String :=
  (phPre x).headD (none, none)

/-- The value `_strip_placeholder_binding` returns: `placeholder_type` is
overwritten by each `}ph` node of the pre-order snapshot in turn (including
nodes inside subtrees already detached), so it is the `type` attribute of the
last such node, `None` when there is none. -/
def stripRetType (x : Xml) : Option String :=
  (((phPre x).map fun p => p.1).getLastD none)

mutual
/-- Tree effect of `_strip_placeholder_binding`: every `}ph`-tagged node that
has a parent is removed together with its subtree; the root (whose
`getparent()` is `None` on a fresh `deepcopy`) is kept. -/
def stripTree : Xml → Xml
  | .elem t a cs => .elem t a (stripChildren cs)
/-- Remove `}ph`-tagged elements from a child list, recursively. -/
def stripChildren : XmlList → XmlList
  | .nil => .nil
  | .cons c cs =>
      if isPhTag c.tag then stripChildren cs
      else .cons (stripTree c) (stripChildren cs)
end

/-- `_find_first_text_size`: first `}rPr` node with a truthy `sz`, else first
`}endParaRPr` node with a truthy `sz`, else `None`. -/
def findFirstTextSize (x : Xml) : Option String :=
  match (allNodes x).find? (fun n => isRPrTag n.tag &&
      (match n.get "sz" with | some s => s ≠ "" | none => false)) with
  | some n => n.get "sz"
  | none =>
    match (allNodes x).find? (fun n => isEndParaRPrTag n.tag &&
        (match n.get "sz" with | some s => s ≠ "" | none => false)) with
    | some n => n.get "sz"
    | none => none

/-- `element.find(".//tag")`: first proper descendant with the given tag, in
document order. -/
def findDesc (x : Xml) (t : String) : Option Xml :=
  (allNodesL x.children).find? (fun n => n.tag == t)

mutual
/-- `_apply_fallback_title_style`, walking the tree: on every run/end-para
style node, set `sz` to `target` when absent and append an
`a:solidFill/a:schemeClr[val=tx1]` child when no `}solidFill` child exists.
The appended subtree contains no style node, so iterating into it (as the
live `lxml` iterator does) changes nothing. -/
def applyFallbackWalk (target : String) : Xml → Xml
  | .elem t a cs =>
      if isRunStyleTag t then
        let a' := if (getAttr a "sz").isSome then a else a ++ [("sz", target)]
        let cs' := applyFallbackChildren target cs
        if cs.toList.any (fun c => isSolidFillTag c.tag) then .elem t a' cs'
        else .elem t a' (appendChild cs'
          (.elem aSolidFillTag []
            (.cons (.elem aSchemeClrTag [("val", "tx1")] .nil) .nil)))
      else .elem t a (applyFallbackChildren target cs)
/-- Walk a child list with `applyFallbackWalk`. -/
def applyFallbackChildren (target : String) : XmlList → XmlList
  | .nil => .nil
  | .cons c cs => .cons (applyFallbackWalk target c) (applyFallbackChildren target cs)
/-- `node.append(child)`. -/
def appendChild : XmlList → Xml → XmlList
  | .nil, y => .cons y .nil
  | .cons c cs, y => .cons c (appendChild cs y)
end

/-- `_apply_fallback_title_style(shape_el, fallback_size)`:
`target_size = fallback_size or "2400"` then the walk above. -/
def applyFallbackTitleStyle (fallbackSize : Option String) (x : Xml) : Xml :=
  applyFallbackWalk (pyOr fallbackSize "2400") x

/-- A shape as enumerated from a layout's or master's `shapes` collection:
`is_placeholder` is the substrate's answer (python-pptx checks for a `p:ph`
descendant) and `element` its XML. -/
structure PShape where
  isPh : Bool
  element : Xml

/-- A layout or master, viewed as the shape collection that
`_find_placeholder_shape` iterates. -/
structure Container where
  shapes : List PShape

/-- The `source_part.slide` context: the slide's layout and that layout's
master (the slide → layout → master inheritance chain). -/
structure SlideCtx where
  layout : Container
  master : Container

/-- `_find_placeholder_shape(container, ph_type, ph_idx)`: first placeholder
shape whose first `}ph` node has exactly the same `type` and whose `idx`
matches after Python's `(idx or "0")` defaulting. -/
def findPlaceholderShape (c : Container) (pt pi : Option String) : Option PShape :=
  c.shapes.find? fun s =>
    s.isPh && decide ((getPlaceholderInfo s.element).1 = pt)
      && decide (pyOr (getPlaceholderInfo s.element).2 "0" = pyOr pi "0")

/-- `_resolve_effective_title_size`: the shape's own first explicit run size,
else the layout placeholder's, else the master placeholder's, else `None`.
Note that a layout placeholder that exists but declares no size does NOT
stop the search (unlike the geometry chain). -/
def resolveEffectiveTitleSize (x : Xml) (ctx : Option SlideCtx)
    (pt pi : Option String) : Option String :=
  match findFirstTextSize x with
  | some s => some s
  | none =>
    match ctx with
    | none => none
    | some c =>
      let fromLayout :=
        match findPlaceholderShape c.layout pt pi with
        | some lp => findFirstTextSize lp.element
        | none => none
      match fromLayout with
      | some s => some s
      | none =>
        match findPlaceholderShape c.master pt pi with
        | some mp => findFirstTextSize mp.element
        | none => none

mutual
/-- Append `y` as the last child of the first proper descendant of the tree
whose tag is `t` (the node `element.find(".//t")` returns); the boolean
reports whether such a node was found. -/
def appendIntoFirstL (t : String) (y : Xml) : XmlList → XmlList × Bool
  | .nil => (.nil, false)
  | .cons c cs =>
      let (c', b) := appendIntoFirstN t y c
      if b then (.cons c' cs, true)
      else
        let (cs', b') := appendIntoFirstL t y cs
        (.cons c cs', b')
/-- Helper of `appendIntoFirstL` considering the node itself first. -/
def appendIntoFirstN (t : String) (y : Xml) : Xml → Xml × Bool
  | .elem tg a cs =>
      if tg == t then (.elem tg a (appendChild cs y), true)
      else
        let (cs', b) := appendIntoFirstL t y cs
        (.elem tg a cs', b)
end

/-- `sp_pr.append(deepcopy(src_xfrm))` realised as tree surgery on the shape
element: append into its first `.//p:spPr` descendant. -/
def appendIntoSpPr (x : Xml) (xf : Xml) : Xml :=
  match x with
  | .elem t a cs => .elem t a (appendIntoFirstL pSpPrTag xf cs).1

/-- The `a:xfrm` carried by a layout/master placeholder shape:
`placeholder_source.element.find(".//p:spPr")` then `.find(".//a:xfrm")`. -/
def phXfrmOf (s : PShape) : Option Xml :=
  match findDesc s.element pSpPrTag with
  | none => none
  | some sp => findDesc sp aXfrmTag

/-- `_materialize_placeholder_geometry`: if the shape's first `.//p:spPr` has
no `.//a:xfrm`, look the placeholder up in the layout, and only when the
layout has NO matching placeholder, in the master; clone the found
placeholder's transform (if it has one) into the shape's `spPr`. -/
def materializePlaceholderGeometry (ctx : Option SlideCtx) (pt pi : Option String)
    (x : Xml) : Xml :=
  match findDesc x pSpPrTag with
  | none => x
  | some spPr =>
    match findDesc spPr aXfrmTag with
    | some _ => x
    | none =>
      match ctx with
      | none => x
      | some c =>
        let ph :=
          match findPlaceholderShape c.layout pt pi with
          | some s => some s
          | none => findPlaceholderShape c.master pt pi
        match ph with
        | none => x
        | some s =>
          match phXfrmOf s with
          | none => x
          | some xf => appendIntoSpPr x xf

/-- Modelled from the spec (claim C5's original wording, for comparison with
the code): the provider chain "search the Layout's placeholder; if it is not
found OR IS ALSO EMPTY, search the Master's" — i.e. the first non-empty
transform along layout → master. -/
def specClaimGeometrySource (c : SlideCtx) (pt pi : Option String) : Option Xml :=
  match (findPlaceholderShape c.layout pt pi).bind phXfrmOf with
  | some xf => some xf
  | none => (findPlaceholderShape c.master pt pi).bind phXfrmOf

/-- Modelled from the spec (claim C5's original wording): materialization
using the first non-empty transform of the layout → master chain. -/
def specClaimMaterializeGeometry (ctx : Option SlideCtx) (pt pi : Option String)
    (x : Xml) : Xml :=
  match findDesc x pSpPrTag with
  | none => x
  | some spPr =>
    match findDesc spPr aXfrmTag with
    | some _ => x
    | none =>
      match ctx with
      | none => x
      | some c =>
        match specClaimGeometrySource c pt pi with
        | none => x
        | some xf => appendIntoSpPr x xf

/-- The amended provider chain, as the code implements it: pick the layout's
matching placeholder when one exists (even if it carries no transform, in
which case geometry stays absent), and consult the master only when the
layout has no matching placeholder at all. -/
def amendedGeometrySource (c : SlideCtx) (pt pi : Option String) : Option Xml :=
  (match findPlaceholderShape c.layout pt pi with
   | some s => some s
   | none => findPlaceholderShape c.master pt pi).bind phXfrmOf

/-- The amended geometry chain of claim C5 stated as a standalone
specification function. -/
def amendedMaterializeGeometry (ctx : Option SlideCtx) (pt pi : Option String)
    (x : Xml) : Xml :=
  match findDesc x pSpPrTag with
  | none => x
  | some spPr =>
    match findDesc spPr aXfrmTag with
    | some _ => x
    | none =>
      match ctx with
      | none => x
      | some c =>
        match amendedGeometrySource c pt pi with
        | none => x
        | some xf => appendIntoSpPr x xf

/-- The `strip_placeholders=True` branch of `_copy_shapes_from_container`
(lines 154-164): read the placeholder info of the fresh deepcopy, for
title-class placeholders materialize geometry and resolve the effective
title size, strip the placeholder binding, and when the stripped binding was
title-class apply the fallback title style. -/
def processStripShape (ctx : Option SlideCtx) (x : Xml) : Xml :=
  let info := getPlaceholderInfo x
  let isTitle := info.1 = some "title" ∨ info.1 = some "ctrTitle"
  let x1 := if isTitle then materializePlaceholderGeometry ctx info.1 info.2 x else x
  let titleSize := if isTitle then resolveEffectiveTitleSize x ctx info.1 info.2 else none
  let pt2 := stripRetType x1
  let x2 := stripTree x1
  if pt2 = some "title" ∨ pt2 = some "ctrTitle"
  then applyFallbackTitleStyle titleSize x2
  else x2

/-- The binary payload of an internal relationship's target part: an abstract
content identifier plus a flag saying whether the substrate can decode it as
an image (`Image.from_file` on unsupported/legacy encodings raises). -/
structure Blob where
  data : Nat
  ok : Bool
  deriving DecidableEq, Repr

/-- One relationship of a source part: type tag, external flag, target
(partname for internal, URI for external), the target part's blob, and a
flag describing whether the substrate's raw relationship-copy call
(`get_or_add` / `get_or_add_ext_rel`) completes without raising for this
target. -/
structure SrcRel where
  reltype : String
  isExternal : Bool
  target : String
  blob : Blob
  rawCopyOk : Bool
  deriving DecidableEq, Repr

/-- A source part: its partname and its relationship table
(`source_part.rels`, id-keyed). -/
structure SrcPart where
  partname : String
  rels : List (String × SrcRel)
  deriving DecidableEq, Repr

/-- `source_part.rels.get(old_rid)`. -/
def SrcPart.getRel (p : SrcPart) (rid : String) : Option SrcRel :=
  (p.rels.find? (fun kv => kv.1 == rid)).map (fun kv => kv.2)

/-- One relationship of the destination slide part. -/
structure DestRel where
  rid : String
  reltype : String
  isExternal : Bool
  target : String
  deriving DecidableEq, Repr

/-- The destination slide part together with the destination package's image
parts: relationship table, image parts keyed by partname with their
contents, and fresh-name counters. -/
structure DestPart where
  rels : List DestRel
  images : List (String × Nat)
  nextRid : Nat
  nextImg : Nat
  deriving DecidableEq, Repr

/-- Fresh relationship id for the destination part. -/
def DestPart.freshRid (d : DestPart) : String := "rId" ++ toString d.nextRid

/-- `dest.rels.get_or_add_ext_rel(reltype, target_ref)`: reuse an existing
external relationship with the same type and target reference, else append a
new one. -/
def DestPart.getOrAddExtRel (d : DestPart) (reltype target : String) :
    DestPart × String :=
  match d.rels.find? (fun r => r.isExternal && r.reltype == reltype
      && r.target == target) with
  | some r => (d, r.rid)
  | none =>
      let rid := d.freshRid
      ({ d with rels := d.rels ++ [⟨rid, reltype, true, target⟩],
                nextRid := d.nextRid + 1 }, rid)

/-- `dest.rels.get_or_add(reltype, target_part)`: reuse an existing internal
relationship with the same type and target part, else append a new one. -/
def DestPart.getOrAdd (d : DestPart) (reltype target : String) :
    DestPart × String :=
  match d.rels.find? (fun r => !r.isExternal && r.reltype == reltype
      && r.target == target) with
  | some r => (d, r.rid)
  | none =>
      let rid := d.freshRid
      ({ d with rels := d.rels ++ [⟨rid, reltype, false, target⟩],
                nextRid := d.nextRid + 1 }, rid)

/-- The image relationship type used by `relate_to(image_part, RT.IMAGE)`. -/
def rtImage : String :=
  "http://schemas.openxmlformats.org/officeDocument/2006/relationships/image"

/-- `dest_slide.part.get_or_add_image_part(BytesIO(blob))` on a decodable
blob: the package deduplicates image parts by content, then the slide part
gets-or-adds an internal image relationship to the image part. -/
def DestPart.getOrAddImagePart (d : DestPart) (data : Nat) : DestPart × String :=
  let (d1, pn) :=
    match d.images.find? (fun im => im.2 == data) with
    | some im => (d, im.1)
    | none =>
        let pn := "/ppt/media/image" ++ toString d.nextImg
        ({ d with images := d.images ++ [(pn, data)], nextImg := d.nextImg + 1 }, pn)
  let (d2, rid) := d1.getOrAdd rtImage pn
  (d2, rid)

/-- The per-slide relationship-id translation cache `rel_map`, keyed on
`(str(source_part.partname), old_rid)`. -/
def RelMap : Type := List ((String × String) × String)

/-- `rel_key in rel_map` / `rel_map[rel_key]`. -/
def lookupRM (m : RelMap) (p v : String) : Option String :=
  (m.find? (fun kv => kv.1.1 == p && kv.1.2 == v)).map (fun kv => kv.2)

/-- `rel_map[rel_key] = new_rid` (a dict update; lookup sees the newest
binding). -/
def insertRM (m : RelMap) (p v rid : String) : RelMap := ((p, v), rid) :: m

/-- What the remapper decides for one relationship-reference attribute. -/
inductive RemapAction where
  | keep
  | set (rid : String)
  | drop
  deriving DecidableEq, Repr

/-- The per-attribute body of `_remap_relationship_ids` (lines 311-344):
cache lookup on `(partname, old_rid)`; unresolvable references are left
untouched; `/tags` relationships signal removal of the owning node; internal
image relationships are copied as image parts when the blob decodes
(failures, including external image references whose `target_part` access
raises, fall through); everything else is copied as a raw external/internal
relationship, whose substrate call may itself raise — uncaught. -/
def remapOne (src : SrcPart) (v : String) (d : DestPart) (m : RelMap) :
    Except Unit (RemapAction × DestPart × RelMap) :=
  match lookupRM m src.partname v with
  | some rid => .ok (.set rid, d, m)
  | none =>
    match src.getRel v with
    | none => .ok (.keep, d, m)
    | some rel =>
      if isTagsType rel.reltype then .ok (.drop, d, m)
      else if isImageType rel.reltype && !rel.isExternal && rel.blob.ok then
        let (d', rid) := d.getOrAddImagePart rel.blob.data
        .ok (.set rid, d', insertRM m src.partname v rid)
      else if rel.rawCopyOk then
        let (d', rid) :=
          if rel.isExternal then d.getOrAddExtRel rel.reltype rel.target
          else d.getOrAdd rel.reltype rel.target
        .ok (.set rid, d', insertRM m src.partname v rid)
      else .error ()

/-- The attribute loop of `_remap_relationship_ids` over
`list(node.attrib.items())`: non-relationship attributes pass through; a
`drop` breaks out of the loop leaving the remaining attributes untouched and
marks the node for removal; an uncaught substrate exception propagates. -/
def remapAttrs (src : SrcPart) (as : List (String × String)) (d : DestPart)
    (m : RelMap) : Except Unit (List (String × String) × DestPart × RelMap × Bool) :=
  match as with
  | [] => .ok ([], d, m, false)
  | (n, v) :: rest =>
    if relNs n then
      match remapOne src v d m with
      | .error e => .error e
      | .ok (.keep, d1, m1) =>
        match remapAttrs src rest d1 m1 with
        | .error e => .error e
        | .ok (rest', d2, m2, mk) => .ok ((n, v) :: rest', d2, m2, mk)
      | .ok (.set rid, d1, m1) =>
        match remapAttrs src rest d1 m1 with
        | .error e => .error e
        | .ok (rest', d2, m2, mk) => .ok ((n, rid) :: rest', d2, m2, mk)
      | .ok (.drop, d1, m1) => .ok ((n, v) :: rest, d1, m1, true)
    else
      match remapAttrs src rest d m with
      | .error e => .error e
      | .ok (rest', d2, m2, mk) => .ok ((n, v) :: rest', d2, m2, mk)

mutual
/-- A post-traversal element: like `Xml` but remembering whether the node was
appended to `nodes_to_remove`. -/
inductive MXml where
  | elem (tag : String) (attrs : List (String × String)) (marked : Bool)
      (children : MXmlList) : MXml
/-- List of post-traversal elements. -/
inductive MXmlList where
  | nil : MXmlList
  | cons (hd : MXml) (tl : MXmlList) : MXmlList
end

/-- Whether the node itself was marked for removal. -/
def MXml.markedTop : MXml → Bool
  | .elem _ _ mk _ => mk

mutual
/-- The traversal pass of `_remap_relationship_ids`: pre-order over the whole
subtree (descendants of a marked node are still visited, exactly as
`shape_el.iter()` keeps yielding them before the removal pass runs). -/
def remapX (src : SrcPart) : Xml → DestPart → RelMap →
    Except Unit (MXml × DestPart × RelMap)
  | .elem t a cs, d, m =>
    match remapAttrs src a d m with
    | .error e => .error e
    | .ok (a', d1, m1, mk) =>
      match remapXs src cs d1 m1 with
      | .error e => .error e
      | .ok (cs', d2, m2) => .ok (.elem t a' mk cs', d2, m2)
/-- Traversal pass over a child list. -/
def remapXs (src : SrcPart) : XmlList → DestPart → RelMap →
    Except Unit (MXmlList × DestPart × RelMap)
  | .nil, d, m => .ok (.nil, d, m)
  | .cons c cs, d, m =>
    match remapX src c d m with
    | .error e => .error e
    | .ok (c', d1, m1) =>
      match remapXs src cs d1 m1 with
      | .error e => .error e
      | .ok (cs', d2, m2) => .ok (.cons c' cs', d2, m2)
end

mutual
/-- The removal pass (lines 346-349): every marked node that has a parent is
removed together with its subtree; the root's `getparent()` is `None` (the
element is a fresh `deepcopy`, inserted into the slide tree only after the
remap), so a marked root stays. -/
def unmark : MXml → Xml
  | .elem t a _ cs => .elem t a (unmarkChildren cs)
/-- Drop marked children, recurse into the kept ones. -/
def unmarkChildren : MXmlList → XmlList
  | .nil => .nil
  | .cons c cs =>
      if c.markedTop then unmarkChildren cs
      else .cons (unmark c) (unmarkChildren cs)
end

/-- `_remap_relationship_ids(shape_el, source_part, dest_slide, rel_map)`:
traversal pass, then removal pass. -/
def remapRelationshipIds (src : SrcPart) (x : Xml) (d : DestPart) (m : RelMap) :
    Except Unit (Xml × DestPart × RelMap) :=
  match remapX src x d m with
  | .error e => .error e
  | .ok (mx, d', m') => .ok (unmark mx, d', m')

/-- `rid` is present in the destination part's relationship table. -/
def ridMem (d : DestPart) (v : String) : Bool := d.rels.any (fun r => r.rid == v)

/-- Resolve an id in the destination part's relationship table. -/
def DestPart.findRel (d : DestPart) (v : String) : Option DestRel :=
  d.rels.find? (fun r => r.rid == v)

/-- Every cached new id in the translation cache exists in the destination
part's relationship table. -/
def mapInvB (m : RelMap) (d : DestPart) : Bool := m.all (fun kv => ridMem d kv.2)

/-- The destination part has no `/tags`-type relationship. -/
def tagsFreeB (d : DestPart) : Bool := d.rels.all (fun r => !isTagsType r.reltype)

/-- Every relationship-reference attribute in the list has a value present in
the destination's relationship table. -/
def attrsOkB (d : DestPart) (as : List (String × String)) : Bool :=
  as.all (fun nv => !relNs nv.1 || ridMem d nv.2)

/-- Every relationship-reference attribute in the list resolves in the source
part's relationship table. -/
def attrsResolveB (src : SrcPart) (as : List (String × String)) : Bool :=
  as.all (fun nv => !relNs nv.1 || (src.getRel nv.2).isSome)

/-- The attribute list carries no relationship-reference attribute at all. -/
def noRelAttrsB (as : List (String × String)) : Bool :=
  as.all (fun nv => !relNs nv.1)

mutual
/-- Every relationship-reference attribute anywhere in the tree resolves in
the source part's table (spec §4.2 step 2 assumes references are
resolvable). -/
def resolvesB (src : SrcPart) : Xml → Bool
  | .elem _ a cs => attrsResolveB src a && resolvesLB src cs
/-- `resolvesB` over a child list. -/
def resolvesLB (src : SrcPart) : XmlList → Bool
  | .nil => true
  | .cons c cs => resolvesB src c && resolvesLB src cs
end

mutual
/-- Every relationship-reference attribute anywhere in the tree has a value
present in the destination part's relationship table. -/
def xmlOkB (d : DestPart) : Xml → Bool
  | .elem _ a cs => attrsOkB d a && xmlOkLB d cs
/-- `xmlOkB` over a child list. -/
def xmlOkLB (d : DestPart) : XmlList → Bool
  | .nil => true
  | .cons c cs => xmlOkB d c && xmlOkLB d cs
end

mutual
/-- Cleanliness of a marked tree: a marked node is about to be deleted with
its whole subtree, so nothing is required of it; an unmarked node's
relationship attributes must already resolve in the destination table and
its children must be clean in turn. -/
def mcleanB (d : DestPart) : MXml → Bool
  | .elem _ a mk cs => mk || (attrsOkB d a && mcleanLB d cs)
/-- `mcleanB` over a child list. -/
def mcleanLB (d : DestPart) : MXmlList → Bool
  | .nil => true
  | .cons c cs => mcleanB d c && mcleanLB d cs
end

mutual
/-- Every relationship-reference attribute anywhere in the tree resolves in
the destination's relationship table to a relationship that is not of the
dropped `/tags` class. -/
def resolvesInDestB (d : DestPart) : Xml → Bool
  | .elem _ a cs =>
      a.all (fun nv => !relNs nv.1 ||
        (match d.findRel nv.2 with
         | some r => !isTagsType r.reltype
         | none => false)) && resolvesInDestLB d cs
/-- `resolvesInDestB` over a child list. -/
def resolvesInDestLB (d : DestPart) : XmlList → Bool
  | .nil => true
  | .cons c cs => resolvesInDestB d c && resolvesInDestLB d cs
end

mutual
/-- Every run/end-paragraph style node of the tree carries an explicit `sz`
attribute and a `}solidFill` child. -/
def rprStyledB : Xml → Bool
  | .elem t a cs =>
      (if isRunStyleTag t
       then (getAttr a "sz").isSome && cs.toList.any (fun c => isSolidFillTag c.tag)
       else true) && rprStyledLB cs
/-- `rprStyledB` over a child list. -/
def rprStyledLB : XmlList → Bool
  | .nil => true
  | .cons c cs => rprStyledB c && rprStyledLB cs
end

/-- Geometry transform of one shape: `left`/`top`/`width`/`height` in EMU. -/
structure Geom where
  left : Int
  top : Int
  width : Int
  height : Int
  deriving DecidableEq, Repr

/-- Python `int()` on an exact rational: truncation toward zero. -/
def pyTrunc (q : ℚ) : Int := Int.tdiv q.num (q.den : Int)

/-- Scale the shapes of one slide (`for shape in slide.shapes` body of
`_normalize_slide_layout`).  Every python-pptx shape object has the
position/size properties, so `hasattr(shape, "left")` is always true; a
shape without a geometry transform answers `None` for `left`, and
`int(None * scale_x)` raises `TypeError` — modelled as the error case. -/
def scaleShapes (sx sy : ℚ) : List (Option Geom) → Except Unit (List (Option Geom))
  | [] => .ok []
  | none :: _ => .error ()
  | some g :: rest =>
    match scaleShapes sx sy rest with
    | .error e => .error e
    | .ok rest' =>
        .ok (some { left := pyTrunc ((g.left : ℚ) * sx),
                    top := pyTrunc ((g.top : ℚ) * sy),
                    width := max 1 (pyTrunc ((g.width : ℚ) * sx)),
                    height := max 1 (pyTrunc ((g.height : ℚ) * sy)) } :: rest')

/-- `_normalize_slide_layout(slide, src_w, src_h, dst_w, dst_h)`. -/
def normalizeSlideLayout (shapes : List (Option Geom)) (srcW srcH dstW dstH : Int) :
    Except Unit (List (Option Geom) × Bool) :=
  if srcW = dstW ∧ srcH = dstH then .ok (shapes, false)
  else
    match scaleShapes ((dstW : ℚ) / (srcW : ℚ)) ((dstH : ℚ) / (srcH : ℚ)) shapes with
    | .error e => .error e
    | .ok shapes' => .ok (shapes', true)

/-- A shape as seen by `_pick_blank_layout`: its placeholder flag and its
optional text content (`hasattr(shape, "text")` is false for shapes with no
text frame). -/
structure LayShape where
  isPh : Bool
  text : Option String
  deriving DecidableEq, Repr

/-- A slide layout as seen by `_pick_blank_layout`. -/
structure Layout where
  name : Option String
  shapes : List LayShape
  deriving DecidableEq, Repr

/-- Whether `needle` occurs as a contiguous run somewhere in `hay`. -/
def hasRun (needle : List Char) : List Char → Bool
  | [] => needle.isEmpty
  | b :: bs => needle.isPrefixOf (b :: bs) || hasRun needle bs

/-- Python substring test `sub in hay` on a character list. -/
def containsRun (hay : List Char) (sub : String) : Bool := hasRun sub.toList hay

/-- `(layout.name or "").lower()` as a character list (ASCII lowering, which
is all `str.lower` does to the names involved here; CJK characters are
unaffected). -/
def lowerName (l : Layout) : List Char := (pyOr l.name "").toList.map Char.toLower

/-- Truthiness of `shape.text and shape.text.strip()`: the text exists and
contains a non-whitespace character. -/
def hasTextB (t : Option String) : Bool :=
  match t with
  | some s => s.toList.any (fun c => !c.isWhitespace)
  | none => false

/-- The score `_pick_blank_layout` computes for one layout, with the
`name_bonus` accumulated exactly as the code does (`-= 200` then `-= 20`). -/
def layoutScore (l : Layout) : Int :=
  let name := lowerName l
  let placeholderCount : Int := (l.shapes.countP (fun s => s.isPh) : Nat)
  let textCount : Int := (l.shapes.countP (fun s => hasTextB s.text) : Nat)
  let bonus : Int :=
    if containsRun name "blank" || containsRun name "空白" then -200 else 0
  let bonus : Int :=
    if containsRun name "标题幻灯片" then bonus - 20 else bonus
  placeholderCount * 100 + textCount * 10 + (l.shapes.length : Int) + bonus

/-- `_pick_blank_layout`: running minimum over the layouts, starting from
`(layouts[0], inf)` — the first layout always replaces the infinite initial
score, and only a strictly smaller score replaces the current best. An empty
layout list would make `pres.slide_layouts[0]` raise, modelled as `none`. -/
def pickBlankLayout (ls : List Layout) : Option Layout :=
  match ls with
  | [] => none
  | l0 :: _ =>
    some ((ls.foldl (fun best l =>
        match best.2 with
        | none => (l, some (layoutScore l))
        | some bs => if layoutScore l < bs then (l, some (layoutScore l)) else best)
      ((l0 : Layout), (none : Option Int))).1)

/-- Specification-side selection: the first layout whose score is less than
or equal to every layout's score ("pick the layout with minimum score; ties
keep the first encountered in enumeration order"). -/
def specPick (f : Layout → Int) (ls : List Layout) : Option Layout :=
  ls.find? (fun a => ls.all (fun b => decide (f a ≤ f b)))

/-- Modelled from the spec (claim C7's original wording): the name bonus as
exclusive cases — `-200` if the name has a blank token, otherwise `-20` if
it is the conventional title-slide name, otherwise `0`. -/
def specClaimScore (l : Layout) : Int :=
  let name := lowerName l
  let placeholderCount : Int := (l.shapes.countP (fun s => s.isPh) : Nat)
  let textCount : Int := (l.shapes.countP (fun s => hasTextB s.text) : Nat)
  let bonus : Int :=
    if containsRun name "blank" || containsRun name "空白" then -200
    else if containsRun name "标题幻灯片" then -20
    else 0
  placeholderCount * 100 + textCount * 10 + (l.shapes.length : Int) + bonus

/-- The amended score formula of claim C7: the two name bonuses are
independent and accumulate (`-220` when the lowered name contains both a
blank token and the conventional title-slide name). -/
def amendedScore (l : Layout) : Int :=
  let name := lowerName l
  let placeholderCount : Int := (l.shapes.countP (fun s => s.isPh) : Nat)
  let textCount : Int := (l.shapes.countP (fun s => hasTextB s.text) : Nat)
  placeholderCount * 100 + textCount * 10 + (l.shapes.length : Int)
    + (if containsRun name "blank" || containsRun name "空白" then -200 else 0)
    + (if containsRun name "标题幻灯片" then -20 else 0)

/-- The geometry view of one slide: the ordered shape list, each shape with
an optional geometry transform. -/
structure GSlide where
  shapes : List (Option Geom)
  deriving DecidableEq, Repr

/-- A deck for the merge orchestrator: slide dimensions and slide list. -/
structure Deck where
  width : Int
  height : Int
  slides : List GSlide
  deriving DecidableEq, Repr

/-- The `MergeReport` dataclass. -/
structure MergeReport where
  total_source_files : Nat
  total_source_slides : Nat
  imported_slides : Nat
  layout_adjusted_slides : Nat
  deriving DecidableEq, Repr

/-- The inner loop body of `merge_with_template` at the geometry level of
abstraction: `add_slide` + `_clear_slide_shapes` + `_disable_master_overlay`
+ `_copy_slide_content` build the destination slide's content (abstracted by
the `copy` parameter — the content transplant is modelled in detail at the
`Xml` level above and never touches the orchestrator's loop structure), then
`_normalize_slide_layout` rescales. -/
def transplantSlide (copy : GSlide → GSlide) (srcW srcH dstW dstH : Int)
    (s : GSlide) : Except Unit (GSlide × Bool) :=
  match normalizeSlideLayout (copy s).shapes srcW srcH dstW dstH with
  | .error e => .error e
  | .ok (sh, adj) => .ok (⟨sh⟩, adj)

/-- The `for src_slide in source.slides` loop: append each transplanted slide
to the deck, bump `imported_slides`, and bump `layout_adjusted_slides` when
normalization reports an adjustment. -/
def mergeSlidesGo (copy : GSlide → GSlide) (dstW dstH srcW srcH : Int) :
    List GSlide → List GSlide → Nat → Nat → Except Unit (List GSlide × Nat × Nat)
  | [], acc, imp, adj => .ok (acc, imp, adj)
  | s :: rest, acc, imp, adj =>
    match transplantSlide copy srcW srcH dstW dstH s with
    | .error e => .error e
    | .ok (ds, b) =>
        mergeSlidesGo copy dstW dstH srcW srcH rest (acc ++ [ds]) (imp + 1)
          (adj + if b then 1 else 0)

/-- The `for source_path in source_paths` loop: open each source, accumulate
its slide count, transplant its slides in order. -/
def mergeSourcesGo (copy : GSlide → GSlide) (dstW dstH : Int) :
    List Deck → List GSlide → Nat → Nat → Nat →
    Except Unit (List GSlide × Nat × Nat × Nat)
  | [], acc, tot, imp, adj => .ok (acc, tot, imp, adj)
  | src :: rest, acc, tot, imp, adj =>
    match mergeSlidesGo copy dstW dstH src.width src.height src.slides acc imp adj with
    | .error e => .error e
    | .ok (acc', imp', adj') =>
        mergeSourcesGo copy dstW dstH rest acc' (tot + src.slides.length) imp' adj'

/-- `merge_with_template(template_path, source_paths, output_path)`: the
orchestrator.  A propagated exception aborts the whole merge with nothing
persisted (`template.save` runs only after all sources are processed). -/
def mergeWithTemplate (copy : GSlide → GSlide) (template : Deck)
    (sources : List Deck) : Except Unit (Deck × MergeReport) :=
  match mergeSourcesGo copy template.width template.height sources
      template.slides 0 0 0 with
  | .error e => .error e
  | .ok (slides, tot, imp, adj) =>
      .ok ({ template with slides := slides },
           { total_source_files := sources.length, total_source_slides := tot,
             imported_slides := imp, layout_adjusted_slides := adj })

/-- Specification-side plan of the slides one source contributes, in
original order. -/
def planSlides (copy : GSlide → GSlide) (dstW dstH srcW srcH : Int) :
    List GSlide → Except Unit (List GSlide)
  | [] => .ok []
  | s :: rest =>
    match transplantSlide copy srcW srcH dstW dstH s with
    | .error e => .error e
    | .ok (ds, _) =>
      match planSlides copy dstW dstH srcW srcH rest with
      | .error e => .error e
      | .ok l => .ok (ds :: l)

/-- Specification-side plan of all appended slides, sources in input
order. -/
def planAll (copy : GSlide → GSlide) (dstW dstH : Int) :
    List Deck → Except Unit (List GSlide)
  | [] => .ok []
  | src :: rest =>
    match planSlides copy dstW dstH src.width src.height src.slides with
    | .error e => .error e
    | .ok l1 =>
      match planAll copy dstW dstH rest with
      | .error e => .error e
      | .ok l2 => .ok (l1 ++ l2)

/-- Tail of `_pick_blank_layout`'s running-minimum loop after the first
iteration has replaced the infinite initial score. -/
def pickGo (b : Layout) (s : Int) : List Layout → Layout
  | [] => b
  | l :: r => if layoutScore l < s then pickGo l (layoutScore l) r else pickGo b s r

/-- The `/tags` relationship type (PowerPoint metadata artifacts). -/
def rtTags : String :=
  "http://schemas.openxmlformats.org/officeDocument/2006/relationships/tags"

/-- The hyperlink relationship type (an external, non-image raw copy). -/
def rtHyper : String :=
  "http://schemas.openxmlformats.org/officeDocument/2006/relationships/hyperlink"

/-- A fresh destination slide part: empty relationship table, no image
parts. -/
def d0 : DestPart := ⟨[], [], 1, 1⟩

/-- Sample source part for the idempotence witness: one internal, decodable
image relationship. -/
def c1src : SrcPart :=
  ⟨"/ppt/slides/slide1.xml",
   [("rId2", ⟨rtImage, false, "../media/image1.png", ⟨7, true⟩, true⟩)]⟩

/-- Destination state after the first remap of `c1src`'s `rId2`. -/
def c1d1 : DestPart :=
  ⟨[⟨"rId1", rtImage, false, "/ppt/media/image1"⟩], [("/ppt/media/image1", 7)], 2, 2⟩

/-- Cache state after the first remap of `c1src`'s `rId2`. -/
def c1m1 : RelMap := [(("/ppt/slides/slide1.xml", "rId2"), "rId1")]

/-- Sample source part with a tags, an internal image and an external
hyperlink relationship. -/
def c2src : SrcPart :=
  ⟨"/ppt/slides/slide2.xml",
   [("rId1", ⟨rtTags, false, "../tags/tag1.xml", ⟨0, true⟩, true⟩),
    ("rId2", ⟨rtImage, false, "../media/image2.png", ⟨9, true⟩, true⟩),
    ("rId3", ⟨rtHyper, true, "https://example.com/", ⟨0, true⟩, true⟩)]⟩

/-- Sample shape subtree: a child node referencing the tags relationship and
a sibling referencing the image and the hyperlink. -/
def c2x : Xml :=
  .elem (pNsStr ++ "sp") []
    (.cons (.elem (pNsStr ++ "custData") [(relNsStr ++ "id", "rId1")] .nil)
    (.cons (.elem (aNsStr ++ "blip")
        [(relNsStr ++ "embed", "rId2"), (relNsStr ++ "link", "rId3")] .nil)
    .nil))

/-- Source part whose only relationship is an internal image with an
undecodable blob and a raw-copy call that also raises. -/
def c3src : SrcPart :=
  ⟨"/ppt/slides/slide3.xml",
   [("rId1", ⟨rtImage, false, "../media/legacy.wmf", ⟨3, false⟩, false⟩)]⟩

/-- Shape subtree referencing `c3src`'s failing image relationship. -/
def c3x : Xml :=
  .elem (pNsStr ++ "pic") []
    (.cons (.elem (aNsStr ++ "blip") [(relNsStr ++ "embed", "rId1")] .nil) .nil)

/-- Source part with an external image relationship (its `target_part`
access raises inside the try-block, so the image copy attempt fails and the
raw external copy succeeds). -/
def c3wsrc : SrcPart :=
  ⟨"/ppt/slides/slide4.xml",
   [("rId5", ⟨rtImage, true, "https://img.example.com/x.png", ⟨0, true⟩, true⟩)]⟩

/-- A title placeholder shape whose run style node has neither an explicit
size nor a solid fill, and whose `spPr` carries no transform. -/
def c4x : Xml :=
  .elem (pNsStr ++ "sp") []
    (.cons (.elem (pNsStr ++ "nvSpPr") []
        (.cons (.elem (pNsStr ++ "ph") [("type", "title")] .nil) .nil))
    (.cons (.elem (pNsStr ++ "spPr") [] .nil)
    (.cons (.elem (pNsStr ++ "txBody") []
        (.cons (.elem (aNsStr ++ "rPr") [] .nil) .nil))
    .nil)))

/-- A title placeholder shape with an empty `spPr` (no own transform). -/
def c5shape : Xml :=
  .elem (pNsStr ++ "sp") [] (.cons (.elem pSpPrTag [] .nil) .nil)

/-- A layout title placeholder that exists but carries no transform. -/
def c5layoutPh : PShape :=
  ⟨true, .elem (pNsStr ++ "sp") []
    (.cons (.elem (pNsStr ++ "ph") [("type", "title")] .nil)
    (.cons (.elem pSpPrTag [] .nil) .nil))⟩

/-- A master title placeholder that does carry a transform. -/
def c5masterPh : PShape :=
  ⟨true, .elem (pNsStr ++ "sp") []
    (.cons (.elem (pNsStr ++ "ph") [("type", "title")] .nil)
    (.cons (.elem pSpPrTag [] (.cons (.elem aXfrmTag [] .nil) .nil)) .nil))⟩

/-- Inheritance context for the geometry counterexample: layout placeholder
present but empty, master placeholder with a transform. -/
def c5ctx : SlideCtx := ⟨⟨[c5layoutPh]⟩, ⟨[c5masterPh]⟩⟩

/-- Layout whose lowered name contains both the blank token and the
conventional title-slide name. -/
def c7la : Layout := ⟨some "空白标题幻灯片", [⟨false, none⟩]⟩

/-- Layout whose name is just the blank token. -/
def c7lb : Layout := ⟨some "Blank", []⟩

/-- Source part for the drop-stops-the-element witness: a tags relationship
between two image relationships. -/
def c10src : SrcPart :=
  ⟨"/ppt/slides/slide5.xml",
   [("rId1", ⟨rtTags, false, "../tags/tag1.xml", ⟨0, true⟩, true⟩),
    ("rId2", ⟨rtImage, false, "../media/a.png", ⟨5, true⟩, true⟩),
    ("rId3", ⟨rtImage, false, "../media/b.png", ⟨6, true⟩, true⟩)]⟩

/-- Attributes processed before the tags reference. -/
def c10pre : List (String × String) := [(relNsStr ++ "embed", "rId2")]

/-- Attributes that the `break` leaves unprocessed. -/
def c10post : List (String × String) := [(relNsStr ++ "link", "rId3")]

/-- Destination state after processing `c10pre` alone. -/
def c10d1 : DestPart :=
  ⟨[⟨"rId1", rtImage, false, "/ppt/media/image1"⟩], [("/ppt/media/image1", 5)], 2, 2⟩

/-- Cache state after processing `c10pre` alone. -/
def c10m1 : RelMap := [(("/ppt/slides/slide5.xml", "rId2"), "rId1")]

/-- First pre-existing destination slide of the end-to-end scenario. -/
def c8t0 : GSlide := ⟨[some ⟨10, 20, 30, 40⟩]⟩

/-- Destination deck of the end-to-end scenario: one pre-existing slide. -/
def c8template : Deck := ⟨9144000, 6858000, [c8t0]⟩

/-- First slide of the first source deck. -/
def c8s1a : GSlide := ⟨[some ⟨100, 100, 200, 200⟩]⟩

/-- Second slide of the first source deck. -/
def c8s1b : GSlide := ⟨[]⟩

/-- Only slide of the second source deck. -/
def c8s2a : GSlide := ⟨[some ⟨1, 2, 3, 4⟩, none]⟩

/-- First source deck (2 slides, destination dimensions). -/
def c8src1 : Deck := ⟨9144000, 6858000, [c8s1a, c8s1b]⟩

/-- Second source deck (1 slide, destination dimensions). -/
def c8src2 : Deck := ⟨9144000, 6858000, [c8s2a]⟩

theorem lookupRM_insert_self (m : RelMap) (p v rid : String) :
    lookupRM (insertRM m p v rid) p v = some rid := by
  simp [lookupRM, insertRM, List.find?]

theorem lookupRM_insert_ne (m : RelMap) (p q v w r : String) (h : p ≠ q) :
    lookupRM (insertRM m p v r) q w = lookupRM m q w := by
  have hb : (p == q) = false := by simp [h]
  simp [lookupRM, insertRM, List.find?, hb]

theorem remapOne_set_cached (src : SrcPart) (v : String) (d d' : DestPart)
    (m m' : RelMap) (rid : String)
    (h : remapOne src v d m = .ok (.set rid, d', m')) :
    lookupRM m' src.partname v = some rid := by
  unfold remapOne at h
  cases hl : lookupRM m src.partname v with
  | some r0 =>
      rw [hl] at h
      simp only [Except.ok.injEq, Prod.mk.injEq, RemapAction.set.injEq] at h
      obtain ⟨h1, h2, h3⟩ := h
      rw [← h3, hl, h1]
  | none =>
      rw [hl] at h
      cases hg : src.getRel v with
      | none => rw [hg] at h; simp at h
      | some rel =>
          rw [hg] at h
          by_cases ht : isTagsType rel.reltype
          · simp [ht] at h
          · simp only [ht, Bool.false_eq_true, if_false] at h
            by_cases hi : (isImageType rel.reltype && !rel.isExternal && rel.blob.ok) = true
            · rw [if_pos hi] at h
              simp only [Except.ok.injEq, Prod.mk.injEq, RemapAction.set.injEq] at h
              obtain ⟨h1, h2, h3⟩ := h
              rw [← h3, ← h1, lookupRM_insert_self]
            · rw [if_neg hi] at h
              by_cases hr : rel.rawCopyOk
              · rw [if_pos hr] at h
                simp only [Except.ok.injEq, Prod.mk.injEq, RemapAction.set.injEq] at h
                obtain ⟨h1, h2, h3⟩ := h
                rw [← h3, ← h1, lookupRM_insert_self]
              · rw [if_neg hr] at h; exact absurd h (by simp)

/-- Claim C1: remapping the same `(source part identity, old id)` pair a
second time within one slide copy is served from the cache: it returns the
same new id and leaves the destination part (its relationships and image
parts) and the cache untouched.  Moreover the memoisation is keyed on the
pair, never on the id alone: a cache entry recorded under the same old id by
a DIFFERENT part changes neither the action chosen nor the destination
state. -/
theorem c1_remap_idempotent (src : SrcPart) (v : String) (d d' : DestPart)
    (m m' : RelMap) (rid : String)
    (h : remapOne src v d m = .ok (.set rid, d', m')) :
    remapOne src v d' m' = .ok (.set rid, d', m') ∧
    ∀ p r, p ≠ src.partname →
      (remapOne src v d (insertRM m p v r)).map (fun t => (t.1, t.2.1)) =
        (remapOne src v d m).map (fun t => (t.1, t.2.1)) := by
  constructor
  · have hc := remapOne_set_cached src v d d' m m' rid h
    unfold remapOne
    rw [hc]
  · intro p r hp
    have he : lookupRM (insertRM m p v r) src.partname v = lookupRM m src.partname v :=
      lookupRM_insert_ne m p src.partname v v r hp
    unfold remapOne
    rw [he]
    cases lookupRM m src.partname v with
    | some r0 => rfl
    | none =>
        cases src.getRel v with
        | none => rfl
        | some rel =>
            by_cases ht : isTagsType rel.reltype
            · simp only [ht, if_true]; rfl
            · simp only [ht, Bool.false_eq_true, if_false]
              by_cases hi : (isImageType rel.reltype && !rel.isExternal && rel.blob.ok) = true
              · rw [if_pos hi, if_pos hi]; rfl
              · rw [if_neg hi, if_neg hi]
                by_cases hr : rel.rawCopyOk
                · rw [if_pos hr, if_pos hr]; rfl
                · rw [if_neg hr, if_neg hr]

/-- Witness for C1 at a concrete input: the first remap of `rId2` copies the
image part and returns `rId1`; the second returns the same id with no state
change. -/
theorem c1_witness :
    remapOne c1src "rId2" d0 [] = .ok (.set "rId1", c1d1, c1m1) ∧
    remapOne c1src "rId2" c1d1 c1m1 = .ok (.set "rId1", c1d1, c1m1) :=
  ⟨rfl, (c1_remap_idempotent c1src "rId2" d0 c1d1 [] c1m1 "rId1" rfl).1⟩

theorem remapAttrs_append_ok (src : SrcPart) (pre : List (String × String)) :
    ∀ d m pre' d1 m1, remapAttrs src pre d m = .ok (pre', d1, m1, false) →
    ∀ rest, remapAttrs src (pre ++ rest) d m =
      (match remapAttrs src rest d1 m1 with
       | .error e => .error e
       | .ok (r', d2, m2, mk) => .ok (pre' ++ r', d2, m2, mk)) := by
  induction pre with
  | nil =>
      intro d m pre' d1 m1 h rest
      simp only [remapAttrs, Except.ok.injEq, Prod.mk.injEq] at h
      obtain ⟨h1, h2, h3, -⟩ := h
      subst h1; subst h2; subst h3
      simp only [List.nil_append]
      cases hres : remapAttrs src rest d m with
      | error e => simp
      | ok out => obtain ⟨r', d2, m2, mk⟩ := out; simp
  | cons hd tl ih =>
      intro d m pre' d1 m1 h rest
      obtain ⟨n, v⟩ := hd
      by_cases hn : relNs n = true
      · simp only [remapAttrs, hn, if_true] at h ⊢
        cases hro : remapOne src v d m with
        | error e => rw [hro] at h; exact absurd h (by dsimp only; simp)
        | ok out =>
            obtain ⟨act, da, ma⟩ := out
            rw [hro] at h
            cases act with
            | keep =>
                dsimp only at h
                cases hrest : remapAttrs src tl da ma with
                | error e =>
                    rw [hrest] at h; dsimp only at h; exact absurd h (by simp)
                | ok out2 =>
                    obtain ⟨tl', d2, m2, mk⟩ := out2
                    rw [hrest] at h; dsimp only at h
                    simp only [Except.ok.injEq, Prod.mk.injEq] at h
                    obtain ⟨h1, h2, h3, h4⟩ := h
                    subst h2; subst h3
                    dsimp only
                    simp only [List.append_eq]
                    rw [ih da ma tl' d2 m2 (by rw [hrest, h4]) rest]
                    cases remapAttrs src rest d2 m2 with
                    | error e => rfl
                    | ok out3 =>
                        obtain ⟨r3, d3, m3, mk3⟩ := out3
                        dsimp only
                        rw [← h1, List.cons_append]
            | set rid =>
                dsimp only at h
                cases hrest : remapAttrs src tl da ma with
                | error e =>
                    rw [hrest] at h; dsimp only at h; exact absurd h (by simp)
                | ok out2 =>
                    obtain ⟨tl', d2, m2, mk⟩ := out2
                    rw [hrest] at h; dsimp only at h
                    simp only [Except.ok.injEq, Prod.mk.injEq] at h
                    obtain ⟨h1, h2, h3, h4⟩ := h
                    subst h2; subst h3
                    dsimp only
                    simp only [List.append_eq]
                    rw [ih da ma tl' d2 m2 (by rw [hrest, h4]) rest]
                    cases remapAttrs src rest d2 m2 with
                    | error e => rfl
                    | ok out3 =>
                        obtain ⟨r3, d3, m3, mk3⟩ := out3
                        dsimp only
                        rw [← h1, List.cons_append]
            | drop => exact absurd h (by simp)
      · simp only [remapAttrs, hn, Bool.false_eq_true, if_false] at h ⊢
        cases hrest : remapAttrs src tl d m with
        | error e => rw [hrest] at h; dsimp only at h; exact absurd h (by simp)
        | ok out2 =>
            obtain ⟨tl', d2, m2, mk⟩ := out2
            rw [hrest] at h; dsimp only at h
            simp only [Except.ok.injEq, Prod.mk.injEq] at h
            obtain ⟨h1, h2, h3, h4⟩ := h
            subst h2; subst h3
            simp only [List.append_eq]
            rw [ih d m tl' d2 m2 (by rw [hrest, h4]) rest]
            cases remapAttrs src rest d2 m2 with
            | error e => rfl
            | ok out3 =>
                obtain ⟨r3, d3, m3, mk3⟩ := out3
                dsimp only
                rw [← h1, List.cons_append]

/-- Claim C10: when an attribute of an element resolves to a tags-type
relationship, the element is marked for removal and the attribute loop
`break`s there: the remaining attributes of that element come through
untouched, and neither the destination relationship table nor the image
parts move past the state they had before the tags attribute was reached;
and the removal pass erases a marked child element entirely. -/
theorem c10_tags_drop_stops_element (src : SrcPart)
    (pre post : List (String × String)) (n v : String) (d d1 : DestPart)
    (m m1 : RelMap) (pre' : List (String × String)) (rel : SrcRel)
    (hpre : remapAttrs src pre d m = .ok (pre', d1, m1, false))
    (hn : relNs n = true)
    (hmiss : lookupRM m1 src.partname v = none)
    (hrel : src.getRel v = some rel)
    (htags : isTagsType rel.reltype = true) :
    remapAttrs src (pre ++ (n, v) :: post) d m
      = .ok (pre' ++ (n, v) :: post, d1, m1, true)
    ∧ ∀ (t : String) (as : List (String × String)) (c : MXml) (cs : MXmlList),
        c.markedTop = true →
        unmark (.elem t as false (.cons c cs)) = unmark (.elem t as false cs) := by
  constructor
  · rw [remapAttrs_append_ok src pre d m pre' d1 m1 hpre ((n, v) :: post)]
    have hone : remapOne src v d1 m1 = .ok (.drop, d1, m1) := by
      unfold remapOne
      rw [hmiss]
      dsimp only
      rw [hrel]
      dsimp only
      rw [if_pos htags]
    simp only [remapAttrs, hn, if_true, hone]
  · intro t as c cs hc
    simp [unmark, unmarkChildren, hc]

/-- Witness for C10 at a concrete input: an image reference, then a tags
reference, then another image reference on one element — the tags reference
marks the element, the trailing image reference is left untouched and `b.png`
is never copied into the destination. -/
theorem c10_witness :
    remapAttrs c10src (c10pre ++ (relNsStr ++ "id", "rId1") :: c10post) d0 []
      = .ok ([(relNsStr ++ "embed", "rId1")] ++ (relNsStr ++ "id", "rId1") :: c10post,
             c10d1, c10m1, true) :=
  (c10_tags_drop_stops_element c10src c10pre c10post (relNsStr ++ "id") "rId1" d0
    c10d1 [] c10m1 [(relNsStr ++ "embed", "rId1")]
    ⟨rtTags, false, "../tags/tag1.xml", ⟨0, true⟩, true⟩
    rfl rfl rfl rfl rfl).1

/-- Claim C3 (amended): when the image copy attempt of an image-type
relationship fails (undecodable/legacy blob, or an external image reference
whose `target_part` access raises), the remapper degrades to a raw
relationship copy — an external relationship for external targets and an
internal one otherwise; but when that raw copy itself raises, the exception
propagates uncaught and aborts the slide copy — the reference is NOT
dropped. -/
theorem c3_image_fallback_amended (src : SrcPart) (v : String) (d : DestPart)
    (m : RelMap) (rel : SrcRel)
    (hm : lookupRM m src.partname v = none)
    (hrel : src.getRel v = some rel)
    (himg : isImageType rel.reltype = true)
    (hnt : isTagsType rel.reltype = false)
    (hfail : rel.isExternal = true ∨ rel.blob.ok = false) :
    (rel.rawCopyOk = true → rel.isExternal = true →
       remapOne src v d m = .ok (.set (d.getOrAddExtRel rel.reltype rel.target).2,
         (d.getOrAddExtRel rel.reltype rel.target).1,
         insertRM m src.partname v (d.getOrAddExtRel rel.reltype rel.target).2)) ∧
    (rel.rawCopyOk = true → rel.isExternal = false →
       remapOne src v d m = .ok (.set (d.getOrAdd rel.reltype rel.target).2,
         (d.getOrAdd rel.reltype rel.target).1,
         insertRM m src.partname v (d.getOrAdd rel.reltype rel.target).2)) ∧
    (rel.rawCopyOk = false → remapOne src v d m = .error ()) := by
  have hred : remapOne src v d m =
      (if rel.rawCopyOk then
        .ok (.set (if rel.isExternal then d.getOrAddExtRel rel.reltype rel.target
                   else d.getOrAdd rel.reltype rel.target).2,
             (if rel.isExternal then d.getOrAddExtRel rel.reltype rel.target
              else d.getOrAdd rel.reltype rel.target).1,
             insertRM m src.partname v
               (if rel.isExternal then d.getOrAddExtRel rel.reltype rel.target
                else d.getOrAdd rel.reltype rel.target).2)
       else .error ()) := by
    have hic : (isImageType rel.reltype && !rel.isExternal && rel.blob.ok) = false := by
      rcases hfail with hx | hx <;> simp [himg, hx]
    unfold remapOne
    rw [hm]
    dsimp only
    rw [hrel]
    dsimp only
    rw [if_neg (by rw [hnt]; simp), if_neg (by rw [hic]; simp)]
  refine ⟨?_, ?_, ?_⟩
  · intro hr he
    rw [hred, if_pos hr, he]
    simp
  · intro hr he
    rw [hred, if_pos hr, he]
    simp
  · intro hr
    rw [hred, if_neg (by rw [hr]; simp)]

/-- Counterexample to C3 as stated: with an image relationship whose blob
does not decode and whose raw relationship copy also raises, the whole
remap traversal returns the propagated exception — the slide copy aborts —
instead of dropping the reference and succeeding. -/
theorem c3_counterexample :
    remapRelationshipIds c3src c3x d0 [] = .error () ∧
    ∀ out, remapRelationshipIds c3src c3x d0 [] ≠ .ok out := by
  refine ⟨rfl, ?_⟩
  intro out h
  rw [show remapRelationshipIds c3src c3x d0 [] = .error () from rfl] at h
  exact Except.noConfusion h

/-- Witness for the amended C3 at a concrete input: an external image
reference (image copy attempt fails on `target_part`) degrades to a raw
external relationship copy. -/
theorem c3_witness :
    remapOne c3wsrc "rId5" d0 [] =
      .ok (.set "rId1",
        ⟨[⟨"rId1", rtImage, true, "https://img.example.com/x.png"⟩], [], 2, 1⟩,
        [(("/ppt/slides/slide4.xml", "rId5"), "rId1")]) :=
  ((c3_image_fallback_amended c3wsrc "rId5" d0 []
      ⟨rtImage, true, "https://img.example.com/x.png", ⟨0, true⟩, true⟩
      rfl rfl rfl rfl (Or.inl rfl)).1 rfl rfl).trans rfl

theorem ridMem_mono (d d' : DestPart) (tl : List DestRel)
    (h : d'.rels = d.rels ++ tl) (v : String) (hv : ridMem d v = true) :
    ridMem d' v = true := by
  unfold ridMem at hv ⊢
  rw [h, List.any_append, hv]
  simp

theorem attrsOk_mono (d d' : DestPart) (tl : List DestRel)
    (h : d'.rels = d.rels ++ tl) (as : List (String × String))
    (ha : attrsOkB d as = true) : attrsOkB d' as = true := by
  unfold attrsOkB at ha ⊢
  rw [List.all_eq_true] at ha ⊢
  intro nv hnv
  rcases Bool.or_eq_true _ _ |>.mp (ha nv hnv) with hx | hx
  · rw [hx]; simp
  · rw [ridMem_mono d d' tl h nv.2 hx]; simp

theorem mapInv_mono (d d' : DestPart) (tl : List DestRel)
    (h : d'.rels = d.rels ++ tl) (m : RelMap)
    (hm : mapInvB m d = true) : mapInvB m d' = true := by
  unfold mapInvB at hm ⊢
  rw [List.all_eq_true] at hm ⊢
  intro kv hkv
  exact ridMem_mono d d' tl h kv.2 (hm kv hkv)

theorem tagsFree_mono (d d' : DestPart) (tl : List DestRel)
    (h : d'.rels = d.rels ++ tl) (htl : ∀ r ∈ tl, isTagsType r.reltype = false)
    (htf : tagsFreeB d = true) : tagsFreeB d' = true := by
  unfold tagsFreeB at htf ⊢
  rw [List.all_eq_true] at htf ⊢
  intro r hr
  rw [h, List.mem_append] at hr
  rcases hr with hr | hr
  · exact htf r hr
  · rw [htl r hr]; simp

theorem mapInv_insert (d : DestPart) (m : RelMap) (p v rid : String)
    (hm : mapInvB m d = true) (hrid : ridMem d rid = true) :
    mapInvB (insertRM m p v rid) d = true := by
  unfold mapInvB at hm ⊢
  unfold insertRM
  simp only [List.all_cons, hrid, Bool.true_and]
  exact hm

theorem mapInv_lookup (d : DestPart) (m : RelMap) (p v rid : String)
    (hm : mapInvB m d = true) (h : lookupRM m p v = some rid) :
    ridMem d rid = true := by
  unfold lookupRM at h
  cases hf : m.find? (fun kv => kv.1.1 == p && kv.1.2 == v) with
  | none => rw [hf] at h; exact absurd h (by simp)
  | some kv =>
      rw [hf] at h
      simp only [Option.map_some', Option.some.injEq] at h
      have hmem := List.mem_of_find?_eq_some hf
      unfold mapInvB at hm
      rw [List.all_eq_true] at hm
      rw [← h]
      exact hm kv hmem

theorem getOrAddExtRel_spec (d : DestPart) (rt tg : String) :
    (∃ tl, (d.getOrAddExtRel rt tg).1.rels = d.rels ++ tl ∧
       ∀ r ∈ tl, r.reltype = rt) ∧
    ridMem (d.getOrAddExtRel rt tg).1 (d.getOrAddExtRel rt tg).2 = true := by
  unfold DestPart.getOrAddExtRel
  cases hf : d.rels.find? (fun r => r.isExternal && r.reltype == rt && r.target == tg) with
  | some r =>
      dsimp only
      refine ⟨⟨[], by simp, by simp⟩, ?_⟩
      have hmem := List.mem_of_find?_eq_some hf
      unfold ridMem
      rw [List.any_eq_true]
      exact ⟨r, hmem, by simp⟩
  | none =>
      dsimp only
      refine ⟨⟨[⟨d.freshRid, rt, true, tg⟩], by simp, by simp⟩, ?_⟩
      unfold ridMem
      rw [List.any_eq_true]
      exact ⟨⟨d.freshRid, rt, true, tg⟩, by simp, by simp⟩

theorem getOrAdd_spec (d : DestPart) (rt tg : String) :
    (∃ tl, (d.getOrAdd rt tg).1.rels = d.rels ++ tl ∧
       ∀ r ∈ tl, r.reltype = rt) ∧
    ridMem (d.getOrAdd rt tg).1 (d.getOrAdd rt tg).2 = true := by
  unfold DestPart.getOrAdd
  cases hf : d.rels.find? (fun r => !r.isExternal && r.reltype == rt && r.target == tg) with
  | some r =>
      dsimp only
      refine ⟨⟨[], by simp, by simp⟩, ?_⟩
      have hmem := List.mem_of_find?_eq_some hf
      unfold ridMem
      rw [List.any_eq_true]
      exact ⟨r, hmem, by simp⟩
  | none =>
      dsimp only
      refine ⟨⟨[⟨d.freshRid, rt, false, tg⟩], by simp, by simp⟩, ?_⟩
      unfold ridMem
      rw [List.any_eq_true]
      exact ⟨⟨d.freshRid, rt, false, tg⟩, by simp, by simp⟩

theorem getOrAddImagePart_spec (d : DestPart) (data : Nat) :
    (∃ tl, (d.getOrAddImagePart data).1.rels = d.rels ++ tl ∧
       ∀ r ∈ tl, r.reltype = rtImage) ∧
    ridMem (d.getOrAddImagePart data).1 (d.getOrAddImagePart data).2 = true := by
  unfold DestPart.getOrAddImagePart
  cases hf : d.images.find? (fun im => im.2 == data) with
  | some im =>
      dsimp only
      exact getOrAdd_spec d rtImage im.1
  | none =>
      dsimp only
      have h := getOrAdd_spec
        { d with images := d.images ++ [("/ppt/media/image" ++ toString d.nextImg, data)],
                 nextImg := d.nextImg + 1 }
        rtImage ("/ppt/media/image" ++ toString d.nextImg)
      exact h

theorem isTagsType_rtImage : isTagsType rtImage = false := rfl

theorem remapOne_spec (src : SrcPart) (v : String) (d d' : DestPart)
    (m m' : RelMap) (a : RemapAction)
    (hm : mapInvB m d = true) (htf : tagsFreeB d = true)
    (h : remapOne src v d m = .ok (a, d', m')) :
    (∃ tl, d'.rels = d.rels ++ tl) ∧ mapInvB m' d' = true ∧ tagsFreeB d' = true ∧
    (∀ rid, a = .set rid → ridMem d' rid = true) ∧
    (a = .keep → src.getRel v = none) ∧
    (a = .drop → d' = d ∧ m' = m) := by
  unfold remapOne at h
  cases hl : lookupRM m src.partname v with
  | some rid0 =>
      rw [hl] at h
      dsimp only at h
      simp only [Except.ok.injEq, Prod.mk.injEq] at h
      obtain ⟨ha, hd, hmm⟩ := h
      subst hd; subst hmm
      refine ⟨⟨[], by simp⟩, hm, htf, ?_, ?_, ?_⟩
      · intro rid hr
        rw [← ha] at hr
        cases hr
        exact mapInv_lookup d m src.partname v rid0 hm hl
      · intro hk; rw [← ha] at hk; exact absurd hk (by simp)
      · intro hk; rw [← ha] at hk; exact absurd hk (by simp)
  | none =>
      rw [hl] at h
      dsimp only at h
      cases hg : src.getRel v with
      | none =>
          rw [hg] at h
          dsimp only at h
          simp only [Except.ok.injEq, Prod.mk.injEq] at h
          obtain ⟨ha, hd, hmm⟩ := h
          subst hd; subst hmm
          refine ⟨⟨[], by simp⟩, hm, htf, ?_, fun _ => rfl, ?_⟩
          · intro rid hr; rw [← ha] at hr; exact absurd hr (by simp)
          · intro hk; rw [← ha] at hk; exact absurd hk (by simp)
      | some rel =>
          rw [hg] at h
          dsimp only at h
          by_cases ht : isTagsType rel.reltype = true
          · rw [if_pos ht] at h
            simp only [Except.ok.injEq, Prod.mk.injEq] at h
            obtain ⟨ha, hd, hmm⟩ := h
            subst hd; subst hmm
            refine ⟨⟨[], by simp⟩, hm, htf, ?_, ?_, fun _ => ⟨rfl, rfl⟩⟩
            · intro rid hr; rw [← ha] at hr; exact absurd hr (by simp)
            · intro hk; rw [← ha] at hk; exact absurd hk (by simp)
          · rw [if_neg ht] at h
            by_cases hi : (isImageType rel.reltype && !rel.isExternal && rel.blob.ok) = true
            · rw [if_pos hi] at h
              simp only [Except.ok.injEq, Prod.mk.injEq] at h
              obtain ⟨ha, hd, hmm⟩ := h
              subst hd; subst hmm
              obtain ⟨⟨tl, happ, htl⟩, hrid⟩ := getOrAddImagePart_spec d rel.blob.data
              refine ⟨⟨tl, happ⟩, ?_, ?_, ?_, ?_, ?_⟩
              · exact mapInv_insert _ m src.partname v _
                  (mapInv_mono d _ tl happ m hm) hrid
              · refine tagsFree_mono d _ tl happ ?_ htf
                intro r hr
                rw [htl r hr]
                exact isTagsType_rtImage
              · intro rid hr
                rw [← ha] at hr
                cases hr
                exact hrid
              · intro hk; rw [← ha] at hk; exact absurd hk (by simp)
              · intro hk; rw [← ha] at hk; exact absurd hk (by simp)
            · rw [if_neg hi] at h
              by_cases hr : rel.rawCopyOk = true
              · rw [if_pos hr] at h
                simp only [Except.ok.injEq, Prod.mk.injEq] at h
                obtain ⟨ha, hd, hmm⟩ := h
                subst hd; subst hmm
                have hnt : isTagsType rel.reltype = false := by
                  rw [Bool.not_eq_true] at ht; exact ht
                by_cases he : rel.isExternal = true
                · simp only [he, eq_self_iff_true, if_true] at ha ⊢
                  obtain ⟨⟨tl, happ, htl⟩, hrid⟩ :=
                    getOrAddExtRel_spec d rel.reltype rel.target
                  refine ⟨⟨tl, happ⟩, ?_, ?_, ?_, ?_, ?_⟩
                  · exact mapInv_insert _ m src.partname v _
                      (mapInv_mono d _ tl happ m hm) hrid
                  · refine tagsFree_mono d _ tl happ ?_ htf
                    intro r hrr
                    rw [htl r hrr]
                    exact hnt
                  · intro rid hrr
                    rw [← ha] at hrr
                    cases hrr
                    exact hrid
                  · intro hk; rw [← ha] at hk; exact absurd hk (by simp)
                  · intro hk; rw [← ha] at hk; exact absurd hk (by simp)
                · have he' : rel.isExternal = false := by
                    rw [Bool.not_eq_true] at he; exact he
                  simp only [he', Bool.false_eq_true, if_false] at ha ⊢
                  obtain ⟨⟨tl, happ, htl⟩, hrid⟩ :=
                    getOrAdd_spec d rel.reltype rel.target
                  refine ⟨⟨tl, happ⟩, ?_, ?_, ?_, ?_, ?_⟩
                  · exact mapInv_insert _ m src.partname v _
                      (mapInv_mono d _ tl happ m hm) hrid
                  · refine tagsFree_mono d _ tl happ ?_ htf
                    intro r hrr
                    rw [htl r hrr]
                    exact hnt
                  · intro rid hrr
                    rw [← ha] at hrr
                    cases hrr
                    exact hrid
                  · intro hk; rw [← ha] at hk; exact absurd hk (by simp)
                  · intro hk; rw [← ha] at hk; exact absurd hk (by simp)
              · rw [if_neg hr] at h
                exact absurd h (by simp)

theorem remapAttrs_spec (src : SrcPart) (as : List (String × String)) :
    ∀ d m as' d1 m1 mk,
      mapInvB m d = true → tagsFreeB d = true → attrsResolveB src as = true →
      remapAttrs src as d m = .ok (as', d1, m1, mk) →
      (∃ tl, d1.rels = d.rels ++ tl) ∧ mapInvB m1 d1 = true ∧ tagsFreeB d1 = true ∧
      (mk = false → attrsOkB d1 as' = true) ∧
      (noRelAttrsB as = true → mk = false) := by
  induction as with
  | nil =>
      intro d m as' d1 m1 mk hm htf _ h
      simp only [remapAttrs, Except.ok.injEq, Prod.mk.injEq] at h
      obtain ⟨h1, h2, h3, h4⟩ := h
      subst h1; subst h2; subst h3
      exact ⟨⟨[], by simp⟩, hm, htf, fun _ => by simp [attrsOkB], fun _ => h4.symm⟩
  | cons hd tl ih =>
      intro d m as' d1 m1 mk hm htf hres h
      obtain ⟨n, v⟩ := hd
      have hres' : attrsResolveB src tl = true := by
        unfold attrsResolveB at hres ⊢
        rw [List.all_cons] at hres
        exact (Bool.and_eq_true _ _ |>.mp hres).2
      by_cases hn : relNs n = true
      · have hresHd : (src.getRel v).isSome = true := by
          unfold attrsResolveB at hres
          rw [List.all_cons] at hres
          have := (Bool.and_eq_true _ _ |>.mp hres).1
          rw [hn] at this
          simpa using this
        simp only [remapAttrs, hn, if_true] at h
        cases hro : remapOne src v d m with
        | error e => rw [hro] at h; exact absurd h (by dsimp only; simp)
        | ok out =>
            obtain ⟨act, da, ma⟩ := out
            rw [hro] at h
            obtain ⟨⟨tla, hda⟩, hmaInv, htfa, hset, hkeep, -⟩ :=
              remapOne_spec src v d da m ma act hm htf hro
            cases act with
            | keep =>
                exfalso
                rw [hkeep rfl] at hresHd
                exact absurd hresHd (by simp)
            | set rid =>
                dsimp only at h
                cases hrest : remapAttrs src tl da ma with
                | error e => rw [hrest] at h; dsimp only at h; exact absurd h (by simp)
                | ok out2 =>
                    obtain ⟨tl', d2, m2, mk2⟩ := out2
                    rw [hrest] at h; dsimp only at h
                    simp only [Except.ok.injEq, Prod.mk.injEq] at h
                    obtain ⟨h1, h2, h3, h4⟩ := h
                    subst h2; subst h3; subst h4
                    obtain ⟨⟨tlb, hdb⟩, hm2, htf2, hok2, -⟩ :=
                      ih da ma tl' d2 m2 mk2 hmaInv htfa hres' hrest
                    refine ⟨⟨tla ++ tlb, by rw [hdb, hda, List.append_assoc]⟩,
                      hm2, htf2, ?_, ?_⟩
                    · intro hmk
                      rw [← h1]
                      unfold attrsOkB
                      rw [List.all_cons]
                      have hhd : (!relNs n || ridMem d2 rid) = true := by
                        have := ridMem_mono da d2 tlb hdb rid (hset rid rfl)
                        rw [this]
                        simp
                      rw [hhd]
                      have := hok2 hmk
                      unfold attrsOkB at this
                      rw [this]
                      rfl
                    · intro hnr
                      unfold noRelAttrsB at hnr
                      rw [List.all_cons] at hnr
                      have := (Bool.and_eq_true _ _ |>.mp hnr).1
                      rw [hn] at this
                      exact absurd this (by simp)
            | drop =>
                dsimp only at h
                simp only [Except.ok.injEq, Prod.mk.injEq] at h
                obtain ⟨h1, h2, h3, h4⟩ := h
                subst h2; subst h3
                refine ⟨⟨tla, hda⟩, hmaInv, htfa, ?_, ?_⟩
                · intro hmk; rw [← h4] at hmk; exact absurd hmk (by simp)
                · intro hnr
                  unfold noRelAttrsB at hnr
                  rw [List.all_cons] at hnr
                  have := (Bool.and_eq_true _ _ |>.mp hnr).1
                  rw [hn] at this
                  exact absurd this (by simp)
      · simp only [remapAttrs, hn, Bool.false_eq_true, if_false] at h
        cases hrest : remapAttrs src tl d m with
        | error e => rw [hrest] at h; dsimp only at h; exact absurd h (by simp)
        | ok out2 =>
            obtain ⟨tl', d2, m2, mk2⟩ := out2
            rw [hrest] at h; dsimp only at h
            simp only [Except.ok.injEq, Prod.mk.injEq] at h
            obtain ⟨h1, h2, h3, h4⟩ := h
            subst h2; subst h3; subst h4
            obtain ⟨⟨tlb, hdb⟩, hm2, htf2, hok2, hnr2⟩ :=
              ih d m tl' d2 m2 mk2 hm htf hres' hrest
            refine ⟨⟨tlb, hdb⟩, hm2, htf2, ?_, ?_⟩
            · intro hmk
              rw [← h1]
              unfold attrsOkB
              rw [List.all_cons]
              have hhd : (!relNs n || ridMem d2 v) = true := by
                rw [Bool.not_eq_true] at hn
                rw [hn]
                rfl
              rw [hhd]
              have := hok2 hmk
              unfold attrsOkB at this
              rw [this]
              rfl
            · intro hnr
              unfold noRelAttrsB at hnr
              rw [List.all_cons] at hnr
              exact hnr2 (Bool.and_eq_true _ _ |>.mp hnr).2

mutual
theorem mclean_mono : ∀ (mx : MXml) (d d' : DestPart) (tl : List DestRel),
    d'.rels = d.rels ++ tl → mcleanB d mx = true → mcleanB d' mx = true
  | .elem t a mk cs, d, d', tl, h, hc => by
      unfold mcleanB at hc ⊢
      cases mk with
      | true => simp
      | false =>
          simp only [Bool.false_or] at hc ⊢
          obtain ⟨h1, h2⟩ := Bool.and_eq_true _ _ |>.mp hc
          rw [attrsOk_mono d d' tl h a h1, mcleanL_mono cs d d' tl h h2]
          rfl
theorem mcleanL_mono : ∀ (mcs : MXmlList) (d d' : DestPart) (tl : List DestRel),
    d'.rels = d.rels ++ tl → mcleanLB d mcs = true → mcleanLB d' mcs = true
  | .nil, d, d', tl, h, hc => by simp [mcleanLB]
  | .cons c cs, d, d', tl, h, hc => by
      unfold mcleanLB at hc ⊢
      obtain ⟨h1, h2⟩ := Bool.and_eq_true _ _ |>.mp hc
      rw [mclean_mono c d d' tl h h1, mcleanL_mono cs d d' tl h h2]
      rfl
end

mutual
theorem remapX_spec (src : SrcPart) : ∀ (x : Xml) (d : DestPart) (m : RelMap)
    (mx : MXml) (d' : DestPart) (m' : RelMap),
    mapInvB m d = true → tagsFreeB d = true → resolvesB src x = true →
    remapX src x d m = .ok (mx, d', m') →
    (∃ tl, d'.rels = d.rels ++ tl) ∧ mapInvB m' d' = true ∧ tagsFreeB d' = true ∧
    mcleanB d' mx = true ∧
    (noRelAttrsB x.attrs = true → mx.markedTop = false)
  | .elem t a cs, d, m, mx, d', m', hm, htf, hres, h => by
      simp only [remapX] at h
      have hresA : attrsResolveB src a = true := by
        unfold resolvesB at hres
        exact (Bool.and_eq_true _ _ |>.mp hres).1
      have hresL : resolvesLB src cs = true := by
        unfold resolvesB at hres
        exact (Bool.and_eq_true _ _ |>.mp hres).2
      cases hattrs : remapAttrs src a d m with
      | error e => rw [hattrs] at h; exact absurd h (by dsimp only; simp)
      | ok out =>
          obtain ⟨a', da, ma, mk⟩ := out
          rw [hattrs] at h
          dsimp only at h
          cases hcs : remapXs src cs da ma with
          | error e => rw [hcs] at h; dsimp only at h; exact absurd h (by simp)
          | ok out2 =>
              obtain ⟨cs', d2, m2⟩ := out2
              rw [hcs] at h
              dsimp only at h
              simp only [Except.ok.injEq, Prod.mk.injEq] at h
              obtain ⟨h1, h2, h3⟩ := h
              subst h1; subst h2; subst h3
              obtain ⟨⟨tla, hda⟩, hmaInv, htfa, hokA, hnrA⟩ :=
                remapAttrs_spec src a d m a' da ma mk hm htf hresA hattrs
              obtain ⟨⟨tlb, hdb⟩, hm2, htf2, hcl2⟩ :=
                remapXs_spec src cs da ma cs' d2 m2 hmaInv htfa hresL hcs
              refine ⟨⟨tla ++ tlb, by rw [hdb, hda, List.append_assoc]⟩,
                hm2, htf2, ?_, ?_⟩
              · unfold mcleanB
                cases hmk : mk with
                | true => simp
                | false =>
                    simp only [Bool.false_or]
                    rw [attrsOk_mono da d2 tlb hdb a' (hokA hmk), hcl2]
                    rfl
              · intro hnr
                unfold MXml.markedTop
                exact hnrA hnr
theorem remapXs_spec (src : SrcPart) : ∀ (cs : XmlList) (d : DestPart) (m : RelMap)
    (mcs : MXmlList) (d' : DestPart) (m' : RelMap),
    mapInvB m d = true → tagsFreeB d = true → resolvesLB src cs = true →
    remapXs src cs d m = .ok (mcs, d', m') →
    (∃ tl, d'.rels = d.rels ++ tl) ∧ mapInvB m' d' = true ∧ tagsFreeB d' = true ∧
    mcleanLB d' mcs = true
  | .nil, d, m, mcs, d', m', hm, htf, _, h => by
      simp only [remapXs, Except.ok.injEq, Prod.mk.injEq] at h
      obtain ⟨h1, h2, h3⟩ := h
      subst h1; subst h2; subst h3
      exact ⟨⟨[], by simp⟩, hm, htf, by simp [mcleanLB]⟩
  | .cons c cs, d, m, mcs, d', m', hm, htf, hres, h => by
      simp only [remapXs] at h
      have hresC : resolvesB src c = true := by
        unfold resolvesLB at hres
        exact (Bool.and_eq_true _ _ |>.mp hres).1
      have hresL : resolvesLB src cs = true := by
        unfold resolvesLB at hres
        exact (Bool.and_eq_true _ _ |>.mp hres).2
      cases hc : remapX src c d m with
      | error e => rw [hc] at h; exact absurd h (by dsimp only; simp)
      | ok out =>
          obtain ⟨c', d1, m1⟩ := out
          rw [hc] at h
          dsimp only at h
          cases hcs : remapXs src cs d1 m1 with
          | error e => rw [hcs] at h; dsimp only at h; exact absurd h (by simp)
          | ok out2 =>
              obtain ⟨cs', d2, m2⟩ := out2
              rw [hcs] at h
              dsimp only at h
              simp only [Except.ok.injEq, Prod.mk.injEq] at h
              obtain ⟨h1, h2, h3⟩ := h
              subst h1; subst h2; subst h3
              obtain ⟨⟨tla, hda⟩, hm1Inv, htf1, hcl1, -⟩ :=
                remapX_spec src c d m c' d1 m1 hm htf hresC hc
              obtain ⟨⟨tlb, hdb⟩, hm2, htf2, hcl2⟩ :=
                remapXs_spec src cs d1 m1 cs' d2 m2 hm1Inv htf1 hresL hcs
              refine ⟨⟨tla ++ tlb, by rw [hdb, hda, List.append_assoc]⟩,
                hm2, htf2, ?_⟩
              unfold mcleanLB
              rw [mclean_mono c' d1 d2 tlb hdb hcl1, hcl2]
              rfl
end

theorem any_find_isSome (l : List α) (p : α → Bool) (h : l.any p = true) :
    ∃ x, l.find? p = some x := by
  induction l with
  | nil => simp at h
  | cons a l ih =>
      by_cases ha : p a = true
      · exact ⟨a, by simp [List.find?, ha]⟩
      · rw [List.any_cons] at h
        rcases Bool.or_eq_true _ _ |>.mp h with hx | hx
        · exact absurd hx ha
        · obtain ⟨x, hx'⟩ := ih hx
          refine ⟨x, ?_⟩
          rw [Bool.not_eq_true] at ha
          simp [List.find?, ha, hx']

mutual
theorem unmark_ok : ∀ (mx : MXml) (d : DestPart),
    mcleanB d mx = true → mx.markedTop = false → xmlOkB d (unmark mx) = true
  | .elem t a mk cs, d, hc, hmk => by
      unfold MXml.markedTop at hmk
      subst hmk
      unfold mcleanB at hc
      simp only [Bool.false_or] at hc
      obtain ⟨h1, h2⟩ := Bool.and_eq_true _ _ |>.mp hc
      unfold unmark xmlOkB
      rw [h1, unmarkL_ok cs d h2]
      rfl
theorem unmarkL_ok : ∀ (mcs : MXmlList) (d : DestPart),
    mcleanLB d mcs = true → xmlOkLB d (unmarkChildren mcs) = true
  | .nil, d, hc => by simp [unmarkChildren, xmlOkLB]
  | .cons c cs, d, hc => by
      unfold mcleanLB at hc
      obtain ⟨h1, h2⟩ := Bool.and_eq_true _ _ |>.mp hc
      unfold unmarkChildren
      split
      · exact unmarkL_ok cs d h2
      · next hne =>
          have hmk : c.markedTop = false := by
            rw [Bool.not_eq_true] at hne; exact hne
          unfold xmlOkLB
          rw [unmark_ok c d h1 hmk, unmarkL_ok cs d h2]
          rfl
end

mutual
theorem xmlOk_resolvesInDest : ∀ (x : Xml) (d : DestPart),
    tagsFreeB d = true → xmlOkB d x = true → resolvesInDestB d x = true
  | .elem t a cs, d, htf, hok => by
      unfold xmlOkB at hok
      obtain ⟨h1, h2⟩ := Bool.and_eq_true _ _ |>.mp hok
      unfold resolvesInDestB
      have ha : (a.all fun nv => !relNs nv.1 ||
          (match d.findRel nv.2 with
           | some r => !isTagsType r.reltype
           | none => false)) = true := by
        unfold attrsOkB at h1
        rw [List.all_eq_true] at h1 ⊢
        intro nv hnv
        rcases Bool.or_eq_true _ _ |>.mp (h1 nv hnv) with hx | hx
        · rw [hx]; rfl
        · unfold ridMem at hx
          obtain ⟨r, hfind⟩ := any_find_isSome d.rels (fun r => r.rid == nv.2) hx
          have hmem := List.mem_of_find?_eq_some hfind
          unfold tagsFreeB at htf
          rw [List.all_eq_true] at htf
          have hnt := htf r hmem
          unfold DestPart.findRel
          rw [hfind]
          dsimp only
          rw [hnt]
          simp
      rw [ha, xmlOkL_resolvesInDest cs d htf h2]
      rfl
theorem xmlOkL_resolvesInDest : ∀ (cs : XmlList) (d : DestPart),
    tagsFreeB d = true → xmlOkLB d cs = true → resolvesInDestLB d cs = true
  | .nil, d, _, _ => by simp [resolvesInDestLB]
  | .cons c cs, d, htf, hok => by
      unfold xmlOkLB at hok
      obtain ⟨h1, h2⟩ := Bool.and_eq_true _ _ |>.mp hok
      unfold resolvesInDestLB
      rw [xmlOk_resolvesInDest c d htf h1, xmlOkL_resolvesInDest cs d htf h2]
      rfl
end

/-- Claim C2: under the spec's standing assumptions (references resolve in
the source part, the cache only holds ids present in the destination table,
and the destination has no tags-type relationship yet­ — shape roots carry no
relationship attribute), a completed remap leaves a tree in which EVERY
remaining relationship attribute resolves in the destination slide part's
own relationship table, and resolves to a non-tags relationship: a dropped
tags reference never survives as a dangling attribute, because its owning
node was removed in the separate pass after traversal. -/
theorem c2_dropped_tags_never_dangle (src : SrcPart) (x : Xml) (d : DestPart)
    (m : RelMap)
    (hroot : noRelAttrsB x.attrs = true)
    (hres : resolvesB src x = true)
    (hm : mapInvB m d = true)
    (htf : tagsFreeB d = true) :
    OnOk (fun r => resolvesInDestB r.2.1 r.1 = true ∧ tagsFreeB r.2.1 = true)
      (remapRelationshipIds src x d m) := by
  unfold remapRelationshipIds
  cases hx : remapX src x d m with
  | error e => exact trivial
  | ok out =>
      obtain ⟨mx, d', m'⟩ := out
      dsimp only
      obtain ⟨-, -, htf', hcl, hnr⟩ := remapX_spec src x d m mx d' m' hm htf hres hx
      have hok := unmark_ok mx d' hcl (hnr hroot)
      exact ⟨xmlOk_resolvesInDest (unmark mx) d' htf' hok, htf'⟩

/-- Witness for C2: a shape whose child references a tags relationship and
whose sibling references an image and an external hyperlink — after the
remap every surviving relationship attribute resolves to a non-tags entry of
the destination part. -/
theorem c2_witness :
    OnOk (fun r => resolvesInDestB r.2.1 r.1 = true ∧ tagsFreeB r.2.1 = true)
      (remapRelationshipIds c2src c2x d0 []) :=
  c2_dropped_tags_never_dangle c2src c2x d0 [] rfl rfl rfl rfl

theorem tag_applyFallback (c : Xml) (target : String) :
    (applyFallbackWalk target c).tag = c.tag := by
  cases c with
  | elem t a cs =>
      unfold applyFallbackWalk
      by_cases ht : isRunStyleTag t = true
      · rw [if_pos ht]
        by_cases hsf : cs.toList.any (fun c => isSolidFillTag c.tag) = true
        · rw [if_pos hsf]; rfl
        · rw [if_neg hsf]; rfl
      · rw [if_neg ht]; rfl

theorem getAttr_append_self (a : List (String × String)) (n v : String)
    (h : getAttr a n = none) : getAttr (a ++ [(n, v)]) n = some v := by
  induction a with
  | nil => simp [getAttr, List.find?]
  | cons hd tl ih =>
      unfold getAttr at h ⊢
      by_cases hh : (hd.1 == n) = true
      · exfalso
        simp [List.find?, hh] at h
      · rw [Bool.not_eq_true] at hh
        simp only [List.cons_append, List.find?, hh] at h ⊢
        exact ih h

theorem toList_appendChild : ∀ (cs : XmlList) (y : Xml),
    (appendChild cs y).toList = cs.toList ++ [y]
  | .nil, y => by simp [appendChild, XmlList.toList]
  | .cons c cs, y => by
      simp [appendChild, XmlList.toList, toList_appendChild cs y]

theorem toList_applyFallbackChildren : ∀ (cs : XmlList) (target : String),
    (applyFallbackChildren target cs).toList
      = cs.toList.map (applyFallbackWalk target)
  | .nil, target => by simp [applyFallbackChildren, XmlList.toList]
  | .cons c cs, target => by
      simp [applyFallbackChildren, XmlList.toList,
        toList_applyFallbackChildren cs target]

theorem anySolid_applyFallbackChildren : ∀ (cs : XmlList) (target : String),
    (applyFallbackChildren target cs).toList.any (fun c => isSolidFillTag c.tag)
      = cs.toList.any (fun c => isSolidFillTag c.tag)
  | .nil, target => rfl
  | .cons c cs, target => by
      unfold applyFallbackChildren
      simp only [XmlList.toList, List.any_cons]
      rw [tag_applyFallback c target, anySolid_applyFallbackChildren cs target]

theorem rprStyledL_appendChild : ∀ (cs : XmlList) (y : Xml),
    rprStyledLB (appendChild cs y) = (rprStyledLB cs && rprStyledB y)
  | .nil, y => by simp [appendChild, rprStyledLB]
  | .cons c cs, y => by
      unfold appendChild rprStyledLB
      rw [rprStyledL_appendChild cs y, Bool.and_assoc]

theorem rprStyledB_solidFillNode :
    rprStyledB (.elem aSolidFillTag []
      (.cons (.elem aSchemeClrTag [("val", "tx1")] .nil) .nil)) = true := rfl

mutual
theorem rprStyled_applyFallback : ∀ (x : Xml) (target : String),
    rprStyledB (applyFallbackWalk target x) = true
  | .elem t a cs, target => by
      unfold applyFallbackWalk
      by_cases ht : isRunStyleTag t = true
      · rw [if_pos ht]
        have hsz : (getAttr (if (getAttr a "sz").isSome then a
            else a ++ [("sz", target)]) "sz").isSome = true := by
          by_cases hs : (getAttr a "sz").isSome = true
          · rw [if_pos hs]; exact hs
          · rw [if_neg hs]
            have : getAttr a "sz" = none := by
              cases hg : getAttr a "sz" with
              | none => rfl
              | some s => rw [hg] at hs; exact absurd rfl hs
            rw [getAttr_append_self a "sz" target this]
            rfl
        by_cases hsf : cs.toList.any (fun c => isSolidFillTag c.tag) = true
        · rw [if_pos hsf]
          unfold rprStyledB
          rw [if_pos ht, hsz, anySolid_applyFallbackChildren cs target, hsf,
            rprStyledL_applyFallback cs target]
          rfl
        · rw [if_neg hsf]
          unfold rprStyledB
          rw [if_pos ht, hsz]
          rw [toList_appendChild, List.any_append,
            anySolid_applyFallbackChildren cs target]
          rw [rprStyledL_appendChild, rprStyledL_applyFallback cs target,
            rprStyledB_solidFillNode]
          have hone : isSolidFillTag (Xml.elem aSolidFillTag []
              (XmlList.cons (Xml.elem aSchemeClrTag [("val", "tx1")] XmlList.nil)
                XmlList.nil)).tag = true := rfl
          simp [hone]
      · rw [if_neg ht]
        unfold rprStyledB
        rw [if_neg ht, rprStyledL_applyFallback cs target]
        rfl
theorem rprStyledL_applyFallback : ∀ (cs : XmlList) (target : String),
    rprStyledLB (applyFallbackChildren target cs) = true
  | .nil, target => by simp [applyFallbackChildren, rprStyledLB]
  | .cons c cs, target => by
      unfold applyFallbackChildren rprStyledLB
      rw [rprStyled_applyFallback c target, rprStyledL_applyFallback cs target]
      rfl
end

/-- Claim C4: a transplanted title-class placeholder shape (exactly one
`p:ph` binding of type `title`/`ctrTitle`, still the only one after geometry
materialization — real transforms carry no `ph` node) comes out of the
strip-placeholder pipeline as the fallback-styled clone: every
run/end-paragraph style node of the result carries an explicit `sz` and a
`}solidFill` child bound to `schemeClr val="tx1"`; and a style node that had
no explicit size receives exactly the resolved inherited size, `"2400"`
(24 pt in centipoints) when resolution found none. -/
theorem c4_title_fallback_style (ctx : Option SlideCtx) (x : Xml) (t : String)
    (i : Option String)
    (hph : phPre x = [(some t, i)])
    (ht : t = "title" ∨ t = "ctrTitle")
    (hph1 : phPre (materializePlaceholderGeometry ctx (some t) i x) = [(some t, i)]) :
    processStripShape ctx x =
      applyFallbackTitleStyle (resolveEffectiveTitleSize x ctx (some t) i)
        (stripTree (materializePlaceholderGeometry ctx (some t) i x)) ∧
    rprStyledB (processStripShape ctx x) = true ∧
    (∀ (tg : String) (as : List (String × String)) (cs : XmlList)
       (fb : Option String),
        isRunStyleTag tg = true → getAttr as "sz" = none →
        ∃ cs', applyFallbackTitleStyle fb (.elem tg as cs)
          = .elem tg (as ++ [("sz", pyOr fb "2400")]) cs') := by
  have hinfo : getPlaceholderInfo x = (some t, i) := by
    unfold getPlaceholderInfo
    rw [hph]
    rfl
  have hstrip : stripRetType (materializePlaceholderGeometry ctx (some t) i x)
      = some t := by
    unfold stripRetType
    rw [hph1]
    rfl
  have htOr : (some t = some "title" ∨ some t = some "ctrTitle") := by
    rcases ht with h | h
    · left; rw [h]
    · right; rw [h]
  have hmain : processStripShape ctx x =
      applyFallbackTitleStyle (resolveEffectiveTitleSize x ctx (some t) i)
        (stripTree (materializePlaceholderGeometry ctx (some t) i x)) := by
    unfold processStripShape
    rw [hinfo]
    dsimp only
    rw [if_pos htOr, if_pos htOr, hstrip, if_pos htOr]
  refine ⟨hmain, ?_, ?_⟩
  · rw [hmain]
    unfold applyFallbackTitleStyle
    exact rprStyled_applyFallback _ _
  · intro tg as cs fb htg hsz
    unfold applyFallbackTitleStyle applyFallbackWalk
    rw [if_pos htg]
    have hnone : (getAttr as "sz").isSome = false := by rw [hsz]; rfl
    have hszif : (if (getAttr as "sz").isSome = true then as
        else as ++ [("sz", pyOr fb "2400")]) = as ++ [("sz", pyOr fb "2400")] := by
      rw [if_neg (by rw [hnone]; simp)]
    by_cases hsf : cs.toList.any (fun c => isSolidFillTag c.tag) = true
    · rw [if_pos hsf, hszif]
      exact ⟨_, rfl⟩
    · rw [if_neg hsf, hszif]
      exact ⟨_, rfl⟩

/-- Witness for C4: a title placeholder with a bare `a:rPr` (no size, no
fill) and no inheritance context — the clone's style node ends with the
24 pt default and a `tx1` solid fill. -/
theorem c4_witness :
    rprStyledB (processStripShape none c4x) = true :=
  (c4_title_fallback_style none c4x "title" none rfl (Or.inl rfl) rfl).2.1

/-- Claim C5 (amended): placeholder geometry resolution materializes the
shape's own transform when present; otherwise it takes the layout's matching
placeholder when one EXISTS — even if that placeholder carries no transform,
in which case geometry is left absent — and consults the master only when
the layout has no placeholder with the same `(type, idx)`; when the selected
placeholder has a transform it is cloned into the shape's `spPr`, and when
no level defines one, geometry stays absent. -/
theorem c5_geometry_chain_amended (ctx : Option SlideCtx) (pt pi : Option String)
    (x : Xml) :
    materializePlaceholderGeometry ctx pt pi x
      = amendedMaterializeGeometry ctx pt pi x := by
  unfold materializePlaceholderGeometry amendedMaterializeGeometry
    amendedGeometrySource
  cases findDesc x pSpPrTag with
  | none => rfl
  | some spPr =>
      dsimp only
      cases findDesc spPr aXfrmTag with
      | some _ => rfl
      | none =>
          dsimp only
          cases ctx with
          | none => rfl
          | some c =>
              dsimp only
              cases findPlaceholderShape c.layout pt pi with
              | some s =>
                  dsimp only
                  rw [Option.some_bind]
              | none =>
                  dsimp only
                  cases findPlaceholderShape c.master pt pi with
                  | none => rfl
                  | some s =>
                      dsimp only
                      rw [Option.some_bind]

/-- Counterexample to C5 as stated: the layout's title placeholder exists
but is empty and the master's carries a transform; the claim's chain
("if not found or also empty, search the Master's") would clone the master's
transform in, yet the code leaves the shape unchanged, with no transform at
all. -/
theorem c5_counterexample :
    materializePlaceholderGeometry (some c5ctx) (some "title") none c5shape
      = c5shape ∧
    (findDesc (materializePlaceholderGeometry (some c5ctx) (some "title") none
        c5shape) aXfrmTag).isSome = false ∧
    (findDesc (specClaimMaterializeGeometry (some c5ctx) (some "title") none
        c5shape) aXfrmTag).isSome = true :=
  ⟨rfl, rfl, rfl⟩

theorem pyTrunc_intCast (n : Int) : pyTrunc ((n : Int) : ℚ) = n := by
  unfold pyTrunc
  rw [Rat.num_intCast, Rat.den_intCast]
  simp [Int.tdiv_one]

/-- Claim C6 behaviour of `_normalize_slide_layout`: equal dimensions are a
no-op returning false with every shape untouched; with source dimensions
half the destination's, the shape `(100, 100, 200, 200)` becomes
`(200, 200, 400, 400)` and the function returns true; but a slide containing
a shape WITHOUT a geometry transform makes the scaling raise
(`shape.left` is `None` and `int(None * scale_x)` is a `TypeError` — the
`hasattr(shape, "left")` guard is always satisfied by python-pptx shape
objects), aborting the merge instead of skipping the shape. -/
theorem c6_normalize_layout :
    (∀ (shapes : List (Option Geom)) (w h : Int),
       normalizeSlideLayout shapes w h w h = .ok (shapes, false)) ∧
    normalizeSlideLayout [some ⟨100, 100, 200, 200⟩] 100 100 200 200
      = .ok ([some ⟨200, 200, 400, 400⟩], true) ∧
    normalizeSlideLayout [some ⟨100, 100, 200, 200⟩, none] 100 100 200 200
      = .error () := by
  have hsx : ((200 : Int) : ℚ) / ((100 : Int) : ℚ) = 2 := by norm_num
  refine ⟨?_, ?_, ?_⟩
  · intro shapes w h
    unfold normalizeSlideLayout
    rw [if_pos ⟨rfl, rfl⟩]
  · unfold normalizeSlideLayout
    rw [if_neg (by decide)]
    unfold scaleShapes scaleShapes
    dsimp only
    rw [hsx]
    have e1 : pyTrunc (((100 : Int) : ℚ) * 2) = (200 : Int) := by
      have hc : ((100 : Int) : ℚ) * 2 = ((200 : Int) : ℚ) := by push_cast; norm_num
      rw [hc, pyTrunc_intCast]
    have e2 : pyTrunc (((200 : Int) : ℚ) * 2) = (400 : Int) := by
      have hc : ((200 : Int) : ℚ) * 2 = ((400 : Int) : ℚ) := by push_cast; norm_num
      rw [hc, pyTrunc_intCast]
    rw [e1, e2]
    decide
  · unfold normalizeSlideLayout
    rw [if_neg (by decide)]
    unfold scaleShapes scaleShapes
    dsimp only

theorem layoutScore_eq_amended (l : Layout) : layoutScore l = amendedScore l := by
  unfold layoutScore amendedScore
  by_cases h1 : (containsRun (lowerName l) "blank"
      || containsRun (lowerName l) "空白") = true <;>
    by_cases h2 : containsRun (lowerName l) "标题幻灯片" = true <;>
      simp [h1, h2] <;> ring

theorem find?_congr_mem : ∀ (l : List α) (p q : α → Bool),
    (∀ a ∈ l, p a = q a) → l.find? p = l.find? q
  | [], _, _, _ => rfl
  | a :: l, p, q, h => by
      have ha := h a (by simp)
      by_cases hp : p a = true
      · rw [List.find?_cons_of_pos _ hp, List.find?_cons_of_pos _ (by rw [← ha]; exact hp)]
      · have hq : ¬q a = true := by rw [← ha]; exact hp
        rw [List.find?_cons_of_neg _ hp, List.find?_cons_of_neg _ hq]
        exact find?_congr_mem l p q (fun a ha' => h a (by simp [ha']))

theorem foldl_pickGo : ∀ (r : List Layout) (b : Layout) (s : Int),
    (r.foldl (fun best l =>
        match best.2 with
        | none => (l, some (layoutScore l))
        | some bs => if layoutScore l < bs then (l, some (layoutScore l)) else best)
      ((b : Layout), (some s : Option Int))).1 = pickGo b s r
  | [], b, s => rfl
  | l :: r, b, s => by
      rw [List.foldl_cons]
      unfold pickGo
      dsimp only
      by_cases hlt : layoutScore l < s
      · rw [if_pos hlt, if_pos hlt]
        exact foldl_pickGo r l (layoutScore l)
      · rw [if_neg hlt, if_neg hlt]
        exact foldl_pickGo r b s

theorem pickBlank_eq_pickGo (l0 : Layout) (rest : List Layout) :
    pickBlankLayout (l0 :: rest) = some (pickGo l0 (layoutScore l0) rest) := by
  unfold pickBlankLayout
  dsimp only
  rw [List.foldl_cons]
  dsimp only
  exact congrArg some (foldl_pickGo rest l0 (layoutScore l0))

theorem pickGo_spec : ∀ (r : List Layout) (b : Layout),
    (b :: r).find? (fun a => (b :: r).all (fun c =>
        decide (layoutScore a ≤ layoutScore c)))
      = some (pickGo b (layoutScore b) r) := by
  intro r
  induction r with
  | nil =>
      intro b
      unfold pickGo
      rw [List.find?_cons_of_pos _ (by simp)]
  | cons l r ih =>
      intro b
      by_cases hlt : layoutScore l < layoutScore b
      · have hb : ((b :: l :: r).all fun c =>
            decide (layoutScore b ≤ layoutScore c)) = false := by
          apply Bool.eq_false_iff.mpr
          intro hc
          rw [List.all_eq_true] at hc
          have := hc l (by simp)
          rw [decide_eq_true_eq] at this
          omega
        rw [List.find?_cons_of_neg _ (by rw [hb]; simp)]
        unfold pickGo
        rw [if_pos hlt, ← ih l]
        apply find?_congr_mem
        intro a ha
        rw [List.all_cons]
        by_cases hsm : ((l :: r).all fun c =>
            decide (layoutScore a ≤ layoutScore c)) = true
        · have hal : layoutScore a ≤ layoutScore l := by
            rw [List.all_eq_true] at hsm
            have := hsm l (by simp)
            rwa [decide_eq_true_eq] at this
          have hab : decide (layoutScore a ≤ layoutScore b) = true := by
            rw [decide_eq_true_eq]
            omega
          rw [hsm, hab]
          rfl
        · have hsm' : ((l :: r).all fun c =>
              decide (layoutScore a ≤ layoutScore c)) = false :=
            Bool.eq_false_iff.mpr hsm
          rw [hsm']
          simp
      · have hble : layoutScore b ≤ layoutScore l := by omega
        unfold pickGo
        rw [if_neg hlt, ← ih b]
        by_cases hmb : ((b :: r).all fun c =>
            decide (layoutScore b ≤ layoutScore c)) = true
        · have hbigb : ((b :: l :: r).all fun c =>
              decide (layoutScore b ≤ layoutScore c)) = true := by
            rw [List.all_eq_true] at hmb ⊢
            intro c hc
            simp only [List.mem_cons] at hc
            rcases hc with rfl | rfl | hc
            · exact hmb c (by simp)
            · rw [decide_eq_true_eq]; exact hble
            · exact hmb c (by simp [hc])
          rw [List.find?_cons_of_pos _ (by exact hbigb),
            List.find?_cons_of_pos _ (by exact hmb)]
        · have hex : ∃ x ∈ r, layoutScore x < layoutScore b := by
            by_contra hno
            push_neg at hno
            apply hmb
            rw [List.all_eq_true]
            intro c hc
            simp only [List.mem_cons] at hc
            rcases hc with rfl | hc
            · simp
            · rw [decide_eq_true_eq]
              have := hno c hc
              omega
          obtain ⟨x, hxr, hxlt⟩ := hex
          have hbigb : ((b :: l :: r).all fun c =>
              decide (layoutScore b ≤ layoutScore c)) = false := by
            apply Bool.eq_false_iff.mpr
            intro hc
            rw [List.all_eq_true] at hc
            have := hc x (by simp [hxr])
            rw [decide_eq_true_eq] at this
            omega
          have hbigl : ((b :: l :: r).all fun c =>
              decide (layoutScore l ≤ layoutScore c)) = false := by
            apply Bool.eq_false_iff.mpr
            intro hc
            rw [List.all_eq_true] at hc
            have := hc x (by simp [hxr])
            rw [decide_eq_true_eq] at this
            omega
          have hmb' : ((b :: r).all fun c =>
              decide (layoutScore b ≤ layoutScore c)) = false :=
            Bool.eq_false_iff.mpr hmb
          rw [List.find?_cons_of_neg _ (by rw [hbigb]; simp),
              List.find?_cons_of_neg _ (by rw [hbigl]; simp),
              List.find?_cons_of_neg _ (by rw [hmb']; simp)]
          apply find?_congr_mem
          intro a ha
          rw [List.all_cons, List.all_cons, List.all_cons]
          by_cases hab : decide (layoutScore a ≤ layoutScore b) = true
          · have hal : decide (layoutScore a ≤ layoutScore l) = true := by
              rw [decide_eq_true_eq] at hab ⊢
              omega
            rw [hab, hal]
            simp
          · have hab' : decide (layoutScore a ≤ layoutScore b) = false :=
              Bool.eq_false_iff.mpr hab
            rw [hab']
            simp

/-- Claim C7 (amended): the selector's score is
`100·placeholders + 10·non-empty-text-shapes + shape-count + bonuses`, where
the two name bonuses are independent and ACCUMULATE — `-200` for a
case-insensitive blank token in either locale plus `-20` for the
conventional title-slide name (`-220` when both occur) — and the selector
returns the first layout attaining the minimum score (strict-improvement
running minimum keeps the first of any tie). -/
theorem c7_layout_selector_amended :
    (∀ l : Layout, layoutScore l = amendedScore l) ∧
    ∀ ls : List Layout, pickBlankLayout ls = specPick layoutScore ls := by
  refine ⟨layoutScore_eq_amended, ?_⟩
  intro ls
  cases ls with
  | nil => rfl
  | cons l0 rest =>
      rw [pickBlank_eq_pickGo]
      unfold specPick
      rw [pickGo_spec rest l0]

/-- Counterexample to C7 as stated: the layout named `空白标题幻灯片`
contains both the blank token and the title-slide name, so the code scores
it `shape_count - 220` while the claim's exclusive-case formula gives
`shape_count - 200`; with a plain `Blank` layout beside it, the code picks
the former while the claim's formula picks the latter. -/
theorem c7_counterexample :
    layoutScore c7la ≠ specClaimScore c7la ∧
    pickBlankLayout [c7la, c7lb] = some c7la ∧
    specPick specClaimScore [c7la, c7lb] = some c7lb ∧
    c7la ≠ c7lb := by
  refine ⟨by decide, rfl, rfl, by decide⟩

theorem mergeSlidesGo_spec (copy : GSlide → GSlide) (dW dH sW sH : Int) :
    ∀ (slides : List GSlide) (acc : List GSlide) (imp adj : Nat)
      (out : List GSlide × Nat × Nat),
      mergeSlidesGo copy dW dH sW sH slides acc imp adj = .ok out →
      ∃ l adj', planSlides copy dW dH sW sH slides = .ok l ∧
        out = (acc ++ l, imp + slides.length, adj') := by
  intro slides
  induction slides with
  | nil =>
      intro acc imp adj out h
      simp only [mergeSlidesGo, Except.ok.injEq] at h
      exact ⟨[], adj, rfl, by rw [← h]; simp⟩
  | cons s rest ih =>
      intro acc imp adj out h
      simp only [mergeSlidesGo] at h
      cases htr : transplantSlide copy sW sH dW dH s with
      | error e => rw [htr] at h; exact absurd h (by dsimp only; simp)
      | ok p =>
          obtain ⟨ds, b⟩ := p
          rw [htr] at h
          dsimp only at h
          obtain ⟨l, adj', hplan, hout⟩ :=
            ih (acc ++ [ds]) (imp + 1) (adj + if b then 1 else 0) out h
          refine ⟨ds :: l, adj', ?_, ?_⟩
          · simp only [planSlides]
            rw [htr]
            dsimp only
            rw [hplan]
          · rw [hout]
            simp only [Prod.mk.injEq, List.length_cons]
            exact ⟨by simp, by omega, trivial⟩

theorem mergeSourcesGo_spec (copy : GSlide → GSlide) (dW dH : Int) :
    ∀ (sources : List Deck) (acc : List GSlide) (tot imp adj : Nat)
      (out : List GSlide × Nat × Nat × Nat),
      mergeSourcesGo copy dW dH sources acc tot imp adj = .ok out →
      ∃ l adj', planAll copy dW dH sources = .ok l ∧
        out = (acc ++ l, tot + (sources.map (fun s => s.slides.length)).sum,
               imp + (sources.map (fun s => s.slides.length)).sum, adj') := by
  intro sources
  induction sources with
  | nil =>
      intro acc tot imp adj out h
      simp only [mergeSourcesGo, Except.ok.injEq] at h
      exact ⟨[], adj, rfl, by rw [← h]; simp⟩
  | cons src rest ih =>
      intro acc tot imp adj out h
      simp only [mergeSourcesGo] at h
      cases hms : mergeSlidesGo copy dW dH src.width src.height src.slides acc imp adj with
      | error e => rw [hms] at h; exact absurd h (by dsimp only; simp)
      | ok out1 =>
          obtain ⟨acc1, imp1, adj1⟩ := out1
          rw [hms] at h
          dsimp only at h
          obtain ⟨l1, adjx, hplan1, hout1⟩ :=
            mergeSlidesGo_spec copy dW dH src.width src.height src.slides
              acc imp adj (acc1, imp1, adj1) hms
          simp only [Prod.mk.injEq] at hout1
          obtain ⟨ha1, hi1, -⟩ := hout1
          subst ha1; subst hi1
          obtain ⟨l2, adj', hplan2, hout2⟩ :=
            ih (acc ++ l1) (tot + src.slides.length)
              (imp + src.slides.length) adj1 out h
          refine ⟨l1 ++ l2, adj', ?_, ?_⟩
          · simp only [planAll]
            rw [hplan1]
            dsimp only
            rw [hplan2]
          · rw [hout2]
            simp only [Prod.mk.injEq, List.map_cons, List.sum_cons]
            exact ⟨by simp, by omega, by omega, trivial⟩

/-- Claim C8: the destination deck's pre-existing slides are never modified
or reordered — a completed merge produces exactly the old slide list with
the transplanted slides appended after it, sources in input order, each
source's slides in original order (the plan `planAll`); and in the
1 + (2 + 1) scenario with matching dimensions the output holds the original
first slide unchanged followed by the three imported slides, with report
`(2, 3, 3, 0)`. -/
theorem c8_append_only :
    (∀ (copy : GSlide → GSlide) (template : Deck) (sources : List Deck),
      OnOk (fun out => ∃ news,
          planAll copy template.width template.height sources = .ok news ∧
          out.1.slides = template.slides ++ news)
        (mergeWithTemplate copy template sources)) ∧
    mergeWithTemplate (fun s => s) c8template [c8src1, c8src2]
      = .ok (⟨9144000, 6858000, [c8t0, c8s1a, c8s1b, c8s2a]⟩, ⟨2, 3, 3, 0⟩) := by
  constructor
  · intro copy template sources
    unfold mergeWithTemplate
    cases hms : mergeSourcesGo copy template.width template.height sources
        template.slides 0 0 0 with
    | error e => exact trivial
    | ok out =>
        dsimp only
        obtain ⟨l, adj', hplan, hout⟩ :=
          mergeSourcesGo_spec copy template.width template.height sources
            template.slides 0 0 0 out hms
        exact ⟨l, hplan, by rw [hout]⟩
  · rfl

/-- Claim C9: a completed merge reports `imported_slides =
total_source_slides` (no source slide is skipped), `total_source_slides`
equal to the sum of the source decks' slide counts, and
`total_source_files` equal to the number of sources given. -/
theorem c9_report_counts (copy : GSlide → GSlide) (template : Deck)
    (sources : List Deck) :
    OnOk (fun out =>
        out.2.imported_slides = out.2.total_source_slides ∧
        out.2.total_source_slides = (sources.map (fun s => s.slides.length)).sum ∧
        out.2.total_source_files = sources.length)
      (mergeWithTemplate copy template sources) := by
  unfold mergeWithTemplate
  cases hms : mergeSourcesGo copy template.width template.height sources
      template.slides 0 0 0 with
  | error e => exact trivial
  | ok out =>
      dsimp only
      obtain ⟨l, adj', hplan, hout⟩ :=
        mergeSourcesGo_spec copy template.width template.height sources
          template.slides 0 0 0 out hms
      rw [hout]
      exact ⟨rfl, by simp, rfl⟩
